import Mathlib

/-!
Verification of the Socratic learning assistant: the resilient model-invocation
layer (fallback across candidate models with retry/backoff), the request
scheduler, the JSON response parser, and the dialogue state reducer, shallowly
embedded from the JavaScript sources: `src/unnamed/part_000` (OpenRouter
client), `src/unnamed/part_001` (probing Gemini client), `src/unnamed/part_002`
(session page logic), `src/js/gemini-api.js` and `src/js/storage.js`.
-/

namespace Socratic

/-- JSON values as produced by `JSON.parse`.  Numbers keep their source lexeme
(`numVal` below gives the numeric value); canonical double re-printing is not
modelled. -/
inductive JsonValue where
  | null
  | bool (b : Bool)
  | num (lexeme : String)
  | str (s : String)
  | arr (elems : List JsonValue)
  | obj (fields : List (String × JsonValue))

/-- JSON inter-token whitespace accepted by `JSON.parse`. -/
def isJsonWs (c : Char) : Bool :=
  c == (' ') || c == ('\t') || c == ('\n') || c == ('\r')

def skipWs (l : List Char) : List Char := l.dropWhile isJsonWs

def isDigitChar (c : Char) : Bool := ('0') ≤ c && c ≤ ('9')

def hexVal (c : Char) : Option Nat :=
  if ('0') ≤ c && c ≤ ('9') then some (c.toNat - ('0').toNat)
  else if ('a') ≤ c && c ≤ ('f') then some (c.toNat - ('a').toNat + 10)
  else if ('A') ≤ c && c ≤ ('F') then some (c.toNat - ('A').toNat + 10)
  else none

/-- Body of a JSON string after the opening quote: decoded characters plus the
input remaining after the closing quote.  Escape sequences follow the JSON
grammar; a `\uXXXX` escape becomes the character with that code (surrogate-pair
combination is not modelled, no claim touches it). -/
def pStringBody : Nat → List Char → Option (List Char × List Char)
  | 0, _ => none
  | _ + 1, [] => none
  | fuel + 1, c :: rest =>
    if c == ('"') then some ([], rest)
    else if c == ('\\') then
      match rest with
      | [] => none
      | e :: rest2 =>
        if e == ('"') || e == ('\\') || e == ('/') then
          (pStringBody fuel rest2).map (fun p => (e :: p.1, p.2))
        else if e == ('b') then
          (pStringBody fuel rest2).map (fun p => (('\x08') :: p.1, p.2))
        else if e == ('f') then
          (pStringBody fuel rest2).map (fun p => (('\x0c') :: p.1, p.2))
        else if e == ('n') then
          (pStringBody fuel rest2).map (fun p => (('\n') :: p.1, p.2))
        else if e == ('r') then
          (pStringBody fuel rest2).map (fun p => (('\r') :: p.1, p.2))
        else if e == ('t') then
          (pStringBody fuel rest2).map (fun p => (('\t') :: p.1, p.2))
        else if e == ('u') then
          match rest2 with
          | h1 :: h2 :: h3 :: h4 :: rest3 =>
            match hexVal h1, hexVal h2, hexVal h3, hexVal h4 with
            | some a, some b, some c2, some d =>
              (pStringBody fuel rest3).map
                (fun p => (Char.ofNat (((a * 16 + b) * 16 + c2) * 16 + d) :: p.1, p.2))
            | _, _, _, _ => none
          | _ => none
        else none
    else if c.toNat < 32 then none
    else (pStringBody fuel rest).map (fun p => (c :: p.1, p.2))

def lexDigits (l : List Char) : List Char × List Char :=
  (l.takeWhile isDigitChar, l.dropWhile isDigitChar)

/-- Optional exponent part of a JSON number; `pre` is the lexeme so far. -/
def lexNumberExp (pre : List Char) (l : List Char) : Option (List Char × List Char) :=
  match l with
  | [] => some (pre, [])
  | c :: r =>
    if c == ('e') || c == ('E') then
      let sr : List Char × List Char :=
        match r with
        | ('+') :: r2 => ([('+')], r2)
        | ('-') :: r2 => ([('-')], r2)
        | r2 => ([], r2)
      let ds := lexDigits sr.2
      if ds.1.isEmpty then none else some (pre ++ c :: sr.1 ++ ds.1, ds.2)
    else some (pre, c :: r)

/-- Optional fraction part of a JSON number. -/
def lexNumberFrac (pre : List Char) (l : List Char) : Option (List Char × List Char) :=
  match l with
  | ('.') :: r =>
    let ds := lexDigits r
    if ds.1.isEmpty then none else lexNumberExp (pre ++ ('.') :: ds.1) ds.2
  | _ => lexNumberExp pre l

/-- Lex a JSON number `-? (0 | [1-9][0-9]*) frac? exp?`, returning its lexeme
and the rest of the input. -/
def lexNumber (l : List Char) : Option (List Char × List Char) :=
  let nr : List Char × List Char :=
    match l with
    | ('-') :: r => ([('-')], r)
    | r => ([], r)
  match nr.2 with
  | [] => none
  | c :: r =>
    if c == ('0') then lexNumberFrac (nr.1 ++ [c]) r
    else if isDigitChar c then
      let ds := lexDigits r
      lexNumberFrac (nr.1 ++ c :: ds.1) ds.2
    else none

/-- JavaScript property assignment `obj[k] = v` on an object literal being
built: an existing key keeps its position and gets the new value, a new key is
appended. -/
def setField : List (String × JsonValue) → String → JsonValue → List (String × JsonValue)
  | [], k, v => [(k, v)]
  | (k', v') :: rest, k, v =>
    if k' == k then (k, v) :: rest else (k', v') :: setField rest k v

/-- Object construction from parsed members, later duplicate keys overwriting
earlier ones as `JSON.parse` does. -/
def buildObj (members : List (String × JsonValue)) : List (String × JsonValue) :=
  members.foldl (fun acc kv => setField acc kv.1 kv.2) []

mutual

/-- Recursive-descent parser for one JSON value (fuel-indexed; fuel larger than
the input length never runs out). -/
def pValue : Nat → List Char → Option (JsonValue × List Char)
  | 0, _ => none
  | fuel + 1, l =>
    match skipWs l with
    | [] => none
    | c :: rest =>
      if c == ('\x7b') then
        match skipWs rest with
        | ('\x7d') :: rest2 => some (.obj [], rest2)
        | rest2 => (pMembers fuel rest2).map (fun p => (JsonValue.obj (buildObj p.1), p.2))
      else if c == ('[') then
        match skipWs rest with
        | (']') :: rest2 => some (.arr [], rest2)
        | rest2 => (pElements fuel rest2).map (fun p => (JsonValue.arr p.1, p.2))
      else if c == ('"') then
        (pStringBody (rest.length + 1) rest).map (fun p => (JsonValue.str p.1.asString, p.2))
      else if c == ('t') then
        match rest with
        | ('r') :: ('u') :: ('e') :: rest2 => some (.bool true, rest2)
        | _ => none
      else if c == ('f') then
        match rest with
        | ('a') :: ('l') :: ('s') :: ('e') :: rest2 => some (.bool false, rest2)
        | _ => none
      else if c == ('n') then
        match rest with
        | ('u') :: ('l') :: ('l') :: rest2 => some (.null, rest2)
        | _ => none
      else
        match lexNumber (c :: rest) with
        | some (lex, rest2) => some (.num lex.asString, rest2)
        | none => none

/-- One or more `"key": value` members of a JSON object, up to the closing
brace. -/
def pMembers : Nat → List Char → Option (List (String × JsonValue) × List Char)
  | 0, _ => none
  | fuel + 1, l =>
    match skipWs l with
    | ('"') :: rest =>
      match pStringBody (rest.length + 1) rest with
      | some (key, rest2) =>
        match skipWs rest2 with
        | (':') :: rest3 =>
          match pValue fuel rest3 with
          | some (v, rest4) =>
            match skipWs rest4 with
            | (',') :: rest5 =>
              (pMembers fuel rest5).map (fun p => ((key.asString, v) :: p.1, p.2))
            | ('\x7d') :: rest5 => some ([(key.asString, v)], rest5)
            | _ => none
          | none => none
        | _ => none
      | none => none
    | _ => none

/-- One or more elements of a JSON array, up to the closing bracket. -/
def pElements : Nat → List Char → Option (List JsonValue × List Char)
  | 0, _ => none
  | fuel + 1, l =>
    match pValue fuel l with
    | some (v, rest) =>
      match skipWs rest with
      | (',') :: rest2 => (pElements fuel rest2).map (fun p => (v :: p.1, p.2))
      | (']') :: rest2 => some ([v], rest2)
      | _ => none
    | none => none

end

/-- Model of `JSON.parse`: parse a complete JSON text, allowing only trailing
whitespace; `none` models the thrown `SyntaxError`. -/
def jsonParse (s : String) : Option JsonValue :=
  match pValue (s.length + 1) s.data with
  | some (v, rest) => if (skipWs rest).isEmpty then some v else none
  | none => none

/-- Whitespace removed by JavaScript `String.prototype.trim` (the ASCII part,
which is all that occurs here). -/
def isJsWs (c : Char) : Bool :=
  c == (' ') || c == ('\t') || c == ('\n') || c == ('\r') || c == ('\x0b') || c == ('\x0c')

/-- JavaScript `text.trim()`. -/
def jsTrim (s : String) : String :=
  (((s.data.dropWhile isJsWs).reverse.dropWhile isJsWs).reverse).asString

/-- JavaScript `s.startsWith(pre)`. -/
def strStartsWith (s pre : String) : Bool := pre.data.isPrefixOf s.data

/-- JavaScript `s.endsWith(suf)`. -/
def strEndsWith (s suf : String) : Bool := suf.data.isSuffixOf s.data

/-- JavaScript `s.slice(0, -n)` on a string (drop the last `n` characters). -/
def strDropRight (s : String) (n : Nat) : String :=
  (s.data.take (s.data.length - n)).asString

def strIncludesAux (pat : List Char) : List Char → Bool
  | [] => pat.isEmpty
  | c :: rest => pat.isPrefixOf (c :: rest) || strIncludesAux pat rest

/-- JavaScript `s.includes(pat)` (substring containment). -/
def strIncludes (s pat : String) : Bool := strIncludesAux pat.data s.data

/-- JavaScript `toLowerCase` on the ASCII range used by the error messages. -/
def jsToLower (s : String) : String :=
  (s.data.map (fun c =>
    if ('A') ≤ c && c ≤ ('Z') then Char.ofNat (c.toNat + 32) else c)).asString

/-- Model of `_parseJSON` (part_000 lines 213-218, part_001 lines 222-227, and
gemini-api.js lines 126-136, which are the same logic): trim, strip a leading
Markdown code fence by dropping through the first newline (when there is no
newline `indexOf` returns `-1` and `substring(0)` keeps the whole string),
strip a trailing fence, then strict `JSON.parse`.  `none` models the thrown
`SyntaxError`. -/
def parseJSONText (text : String) : Option JsonValue :=
  let c0 := jsTrim text
  let c1 :=
    if strStartsWith c0 ("```") then
      if c0.data.contains ('\n') then
        ((c0.data.dropWhile (fun ch => ch != ('\n'))).drop 1).asString
      else c0
    else c0
  let c2 := if strEndsWith c1 ("```") then jsTrim (strDropRight c1 3) else c1
  jsonParse c2

def digitsVal (ds : List Char) : Nat :=
  ds.foldl (fun a c => a * 10 + (c.toNat - ('0').toNat)) 0

/-- An exact JavaScript number value `n / d` with `d` a positive power of ten
(every JSON number lexeme denotes such a value; double rounding is not
modelled, no claim depends on it). -/
structure JsNum where
  n : Int
  d : Nat
deriving DecidableEq

def JsNum.ofInt (i : Int) : JsNum := ⟨i, 1⟩

/-- Exact numeric value of a JSON number lexeme. -/
def numVal (lexeme : String) : JsNum :=
  let sr : Bool × List Char :=
    match lexeme.data with
    | ('-') :: r => (true, r)
    | r => (false, r)
  let ip := lexDigits sr.2
  let fr : List Char × List Char :=
    match ip.2 with
    | ('.') :: r => lexDigits r
    | r => ([], r)
  let expVal : Int :=
    match fr.2 with
    | c :: r =>
      if c == ('e') || c == ('E') then
        match r with
        | ('+') :: d => ((digitsVal (lexDigits d).1 : Int))
        | ('-') :: d => -((digitsVal (lexDigits d).1 : Int))
        | d => ((digitsVal (lexDigits d).1 : Int))
      else 0
    | [] => 0
  let m : Nat := digitsVal (ip.1 ++ fr.1)
  let e : Int := expVal - (fr.1.length : Int)
  let mag : JsNum :=
    if 0 ≤ e then ⟨(m : Int) * (10 : Int) ^ e.toNat, 1⟩
    else ⟨(m : Int), (10 : Nat) ^ (-e).toNat⟩
  if sr.1 then ⟨-mag.n, mag.d⟩ else mag

/-- JavaScript `<` on exact number values. -/
def JsNum.lt (a b : JsNum) : Bool := a.n * (b.d : Int) < b.n * (a.d : Int)

/-- JavaScript `Math.max` on exact number values. -/
def JsNum.max (a b : JsNum) : JsNum := if JsNum.lt a b then b else a

/-- JavaScript truthiness of a parsed JSON value. -/
def jsTruthy : JsonValue → Bool
  | .null => false
  | .bool b => b
  | .num l => (numVal l).n != 0
  | .str s => s != ("")
  | .arr _ => true
  | .obj _ => true

def lookupField : List (String × JsonValue) → String → Option JsonValue
  | [], _ => none
  | (k', v) :: rest, k => if k' == k then some v else lookupField rest k

/-- JavaScript property read `v.k` on a parsed JSON value (`none` is
`undefined`; only objects carry the properties relevant here). -/
def jLookup (v : JsonValue) (k : String) : Option JsonValue :=
  match v with
  | .obj fields => lookupField fields k
  | _ => none

/-- JavaScript `a || b` on a string-valued `a` (empty string is falsy,
`none` is `undefined`). -/
def jsOrStr : Option String → String → String
  | some s, dflt => if s == ("") then dflt else s
  | none, dflt => dflt

/-- Model of `_isRateLimitError` (part_000 lines 98-105, identical in part_001 lines
125-132): status 429, or a message containing quota / rate /
resource-exhaustion vocabulary. -/
def isRateLimitError (status : Nat) (msg : String) : Bool :=
  if status == 429 then true
  else
    let l := jsToLower msg
    strIncludes l ("quota") || strIncludes l ("rate") || strIncludes l ("resource_exhausted")

def hexDigit (n : Nat) : Char :=
  if n < 10 then Char.ofNat (('0').toNat + n) else Char.ofNat (('a').toNat + (n - 10))

/-- Escaping of one character inside a string by `JSON.stringify`. -/
def stringifyChar (c : Char) : List Char :=
  if c == ('"') then [('\\'), ('"')]
  else if c == ('\\') then [('\\'), ('\\')]
  else if c == ('\x08') then [('\\'), ('b')]
  else if c == ('\x0c') then [('\\'), ('f')]
  else if c == ('\n') then [('\\'), ('n')]
  else if c == ('\r') then [('\\'), ('r')]
  else if c == ('\t') then [('\\'), ('t')]
  else if c.toNat < 32 then
    [('\\'), ('u'), ('0'), ('0'), hexDigit (c.toNat / 16), hexDigit (c.toNat % 16)]
  else [c]

def stringifyString (s : String) : String :=
  (('"') :: (s.data.flatMap stringifyChar) ++ [('"')]).asString

def commaJoin : List String → String
  | [] => ("")
  | [s] => s
  | s :: rest => s ++ ("," ++ commaJoin rest)

/-- Model of `JSON.stringify` of a parsed JSON value (fuel-indexed structural recursion;
number lexemes are emitted verbatim, canonical double printing is not
modelled). -/
def stringifyF : Nat → JsonValue → String
  | 0, _ => ("")
  | fuel + 1, v =>
    match v with
    | .null => ("null")
    | .bool b => if b then ("true") else ("false")
    | .num l => l
    | .str s => stringifyString s
    | .arr es => ("[") ++ commaJoin (es.map (stringifyF fuel)) ++ ("]")
    | .obj fields =>
      ("\x7b") ++
        commaJoin (fields.map (fun kv => stringifyString kv.1 ++ (":") ++ stringifyF fuel kv.2)) ++
        ("\x7d")

mutual

/-- Structural size of a JSON value, used as recursion fuel. -/
def jsonSize : JsonValue → Nat
  | .null => 1
  | .bool _ => 1
  | .num _ => 1
  | .str _ => 1
  | .arr es => 1 + jsonSizeElems es
  | .obj fs => 1 + jsonSizeFields fs

def jsonSizeElems : List JsonValue → Nat
  | [] => 0
  | v :: rest => jsonSize v + jsonSizeElems rest

def jsonSizeFields : List (String × JsonValue) → Nat
  | [] => 0
  | kv :: rest => jsonSize kv.2 + jsonSizeFields rest

end

def stringify (v : JsonValue) : String := stringifyF (jsonSize v) v

/-- JavaScript `String(v)` coercion of a parsed JSON value (array elements are
joined by commas; nested nulls would print as empty, which never occurs in the
data handled here). -/
def jsToStringF : Nat → JsonValue → String
  | 0, _ => ("")
  | fuel + 1, v =>
    match v with
    | .null => ("null")
    | .bool b => if b then ("true") else ("false")
    | .num l => l
    | .str s => s
    | .arr es => commaJoin (es.map (jsToStringF fuel))
    | .obj _ => ("[object Object]")

def jsToString (v : JsonValue) : String := jsToStringF (jsonSize v) v

/-! ## RequestScheduler (`_enqueue`, part_000 lines 87-96 and part_001 lines
114-123)

The promise chain serializes tasks in submission order; before a task runs the
scheduler waits out the remainder of the minimum gap since the previous task
started, then stamps `_lastRequestTime` and runs the task.  The simulated
clock advances by the wait and then by the task's duration. -/

/-- Constant `_minRequestGap` of the OpenRouter client (part_000 line 9). -/
def minRequestGapOpenRouter : Int := 1000

/-- Constant `_minRequestGap` of the probing Gemini client (part_001 line 10). -/
def minRequestGapGemini : Int := 4000

/-- Scheduler state: the simulated current time and `_lastRequestTime`. -/
structure SchedState where
  clock : Int
  lastRequestTime : Int
deriving DecidableEq

/-- The moment a task dequeued in state `s` actually starts:
`wait = minGap - (now - lastRequestTime)`, suspending when positive. -/
def taskStart (minGap : Int) (s : SchedState) : Int :=
  let wait := minGap - (s.clock - s.lastRequestTime)
  if 0 < wait then s.clock + wait else s.clock

/-- Run the queued tasks (given by their durations) one after another through
`_enqueue`, returning each task's (start time, duration). -/
def schedTrace (minGap : Int) : SchedState → List Int → List (Int × Int)
  | _, [] => []
  | s, d :: ds =>
    let st := taskStart minGap s
    (st, d) :: schedTrace minGap ⟨st + d, st⟩ ds

/-! ## Difficulty ratchet (part_002, `handleResponse` lines 123-133) -/

/-- Constant `difficultyOrder` (part_002 line 125). -/
def difficultyOrder : List String := [("foundational"), ("intermediate"), ("advanced"), ("mastery")]

/-- JavaScript `Array.prototype.indexOf` on a string list (`-1` when the value
does not occur). -/
def jsIndexOf (l : List String) (x : String) : Int :=
  match l.findIdx? (fun y => y == x) with
  | some n => (n : Int)
  | none => -1

/-- The `highest_difficulty` update of part_002 lines 123-133:
`difficulty = aiData.difficulty_level || 'foundational'`;
`currentIdx = difficultyOrder.indexOf(session.highest_difficulty || 'foundational')`;
the stored value becomes `difficulty` when `newIdx > currentIdx` and keeps
`session.highest_difficulty` otherwise.  `difficulty_level` is modelled as an
optional string: a non-string value would never be `===`-equal to a list entry,
so `indexOf` would give `-1` and the stored value would be kept, the same as
an unknown string. -/
def updateHighestDifficulty (current : String) (reported : Option String) : String :=
  let difficulty := jsOrStr reported ("foundational")
  let currentIdx := jsIndexOf difficultyOrder (jsOrStr (some current) ("foundational"))
  let newIdx := jsIndexOf difficultyOrder difficulty
  if currentIdx < newIdx then difficulty else current

/-! ## Insight accumulation (part_002, `updateUI` lines 242-257) -/

/-- Model of `list.forEach(i => { if (!acc.includes(i)) acc.push(i) })`: append each
new item unless already present (string equality), preserving insertion
order. -/
def mergeSet (acc : List String) (l : List String) : List String :=
  l.foldl (fun a i => if i ∈ a then a else a ++ [i]) acc

/-- The three accumulated signal lists kept by the session page
(`allCorrectInsights`, `allMisconceptions`, `allGaps`, part_002 lines
13-15). -/
structure InsightState where
  allCorrectInsights : List String
  allMisconceptions : List String
  allGaps : List String
deriving DecidableEq

/-- One turn's `understanding_signals` as consumed by `updateUI`: each field
optional (`none` = absent/undefined; note an empty array is truthy in
JavaScript, so `some []` does replace `gaps`).  Items are modelled as strings
per the response schema. -/
structure Signals where
  correct_insights : Option (List String)
  misconceptions : Option (List String)
  gaps : Option (List String)
deriving DecidableEq

/-- The signal-merging part of `updateUI` (part_002 lines 242-257):
`correct_insights` and `misconceptions` accumulate with dedup, `gaps` is
replaced wholesale when present. -/
def updateUIMerge (s : InsightState) (sig : Signals) : InsightState :=
  { allCorrectInsights :=
      match sig.correct_insights with
      | some l => mergeSet s.allCorrectInsights l
      | none => s.allCorrectInsights
    allMisconceptions :=
      match sig.misconceptions with
      | some l => mergeSet s.allMisconceptions l
      | none => s.allMisconceptions
    allGaps :=
      match sig.gaps with
      | some g => g
      | none => s.allGaps }

/-! ## ModelFallbackInvoker

One HTTP attempt against a model is abstracted by its observable outcome: a
2xx response carrying the extracted text (`data?.choices?.[0]?.message?.content
|| ''` resp. the candidates path, with `''` when missing), a non-2xx response
with its status and optional `error.message`, or a thrown exception during
fetch/body decoding with its optional `e.message`.  The environment maps each
(model, attempt) to its outcome; `emsg` gives the engine-defined
`SyntaxError.message` produced when `JSON.parse` throws on a given text. -/

inductive ApiOutcome where
  | ok (text : String)
  | httpErr (status : Nat) (msg : Option String)
  | netErr (msg : Option String)

/-- One performed HTTP attempt: the model called, the 1-based attempt number
on that model, and the backoff wait slept directly after the attempt
(0 when none). -/
structure CallEvent where
  model : String
  attempt : Nat
  wait : Nat
deriving DecidableEq

inductive ApiResult where
  | success (data : JsonValue)
  | failure (error : String)

/-- Model of `errData?.error?.message || 'API error (status)'` (part_000 line 173,
part_001 line 194). -/
def errMsgOf (status : Nat) (msg : Option String) : String :=
  jsOrStr msg (("API error (") ++ toString status ++ (")"))

/-- Constant `_maxRetries` (part_000 line 12). -/
def maxRetries : Nat := 3

/-- Constant `_baseBackoff` (part_000 line 13). -/
def baseBackoff : Nat := 2000

/-- Model of `this._baseBackoff * Math.pow(2, attempt - 1)` (part_000 lines 179/197). -/
def backoffWait (attempt : Nat) : Nat := baseBackoff * 2 ^ (attempt - 1)

/-- The aggregated user-facing failure of part_000 lines 206-209. -/
def openRouterExhaustedMsg (lastError : String) : String :=
  ("All models are rate-limited or unavailable.\n\nFix options:\n1. Wait a minute and try again\n2. Check your credits at openrouter.ai\n3. Try a different API key\n\nLast error: ")
    ++ lastError

/-- The aggregated user-facing failure of part_001 lines 215-218. -/
def geminiExhaustedMsg (lastError : String) : String :=
  ("All models are rate-limited. This usually means your daily free-tier quota is used up.\n\nFix options:\n1. Wait until your quota resets (midnight Pacific time)\n2. Create a new API key at aistudio.google.com/apikey\n3. Enable billing on your Google Cloud project for higher limits\n\nLast error: ")
    ++ lastError

/-- Result of the inner attempt loop on one model: either the whole call
returns (`done`), or the loop `break`s to the next model carrying the updated
`lastError`. -/
inductive ModelStep where
  | done (r : ApiResult)
  | nextModel (lastError : String)

/-- The inner `for (let attempt = 1; attempt <= this._maxRetries; attempt++)`
loop of `_callAPI` (part_000 lines 161-203) on one model, starting at
`attempt` with `fuel = maxRetries + 1 - attempt` remaining iterations:
- 2xx with parseable text returns success immediately;
- 2xx with unparseable text throws `SyntaxError`, landing in the generic
  `catch` which backs off and retries (or breaks after the last attempt);
- a rate-limited response backs off and retries (or breaks after the last
  attempt);
- any other HTTP error returns immediately;
- a thrown network error backs off and retries (or breaks after the last
  attempt). -/
def tryAttempts (emsg : String → String) (env : String → Nat → ApiOutcome) (model : String) :
    Nat → Nat → String → List CallEvent × ModelStep
  | _, 0, lastError => ([], .nextModel lastError)
  | attempt, fuel + 1, lastError =>
    match env model attempt with
    | .ok text =>
      match parseJSONText text with
      | some parsed => ([⟨model, attempt, 0⟩], .done (.success parsed))
      | none =>
        let le := jsOrStr (some (emsg text)) ("Network error.")
        if attempt < maxRetries then
          let w := backoffWait attempt
          let r := tryAttempts emsg env model (attempt + 1) fuel le
          (⟨model, attempt, w⟩ :: r.1, r.2)
        else ([⟨model, attempt, 0⟩], .nextModel le)
    | .httpErr status msg =>
      let errMsg := errMsgOf status msg
      if isRateLimitError status errMsg then
        if attempt < maxRetries then
          let w := backoffWait attempt
          let r := tryAttempts emsg env model (attempt + 1) fuel errMsg
          (⟨model, attempt, w⟩ :: r.1, r.2)
        else ([⟨model, attempt, 0⟩], .nextModel errMsg)
      else ([⟨model, attempt, 0⟩], .done (.failure errMsg))
    | .netErr msg =>
      let le := jsOrStr msg ("Network error.")
      if attempt < maxRetries then
        let w := backoffWait attempt
        let r := tryAttempts emsg env model (attempt + 1) fuel le
        (⟨model, attempt, w⟩ :: r.1, r.2)
      else ([⟨model, attempt, 0⟩], .nextModel le)

/-- The outer model loop of `_callAPI` (part_000 lines 157-210): try each
candidate model through the attempt loop, threading `lastError`; when every
model is exhausted return the aggregated failure.  Returns the trace of
performed attempts together with the call's result. -/
def callAPIRun (emsg : String → String) (env : String → Nat → ApiOutcome) :
    List String → String → List CallEvent × ApiResult
  | [], lastError => ([], .failure (openRouterExhaustedMsg lastError))
  | model :: rest, lastError =>
    match tryAttempts emsg env model 1 maxRetries lastError with
    | (evs, .done r) => (evs, r)
    | (evs, .nextModel le) =>
      let r := callAPIRun emsg env rest le
      (evs ++ r.1, r.2)

/-- Model of `if (model !== preferred) parsed._usedModel = model` (part_001 line 189)
as the outcome of the property write: `none` when the write throws a
`TypeError` — which happens exactly when `parsed` is `null` and the guard ran —
otherwise the value afterwards.  A write on a primitive is silently ignored
outside strict mode; on an array the marker lands in a non-index property that
nothing reads, the elements are unchanged. -/
def markUsedModel (preferred model : String) (v : JsonValue) : Option JsonValue :=
  if model == preferred then some v
  else
    match v with
    | .null => none
    | .obj fields => some (.obj (setField fields ("_usedModel") (.str model)))
    | other => some other

/-- The model loop of `_callGemini` (part_001 lines 178-219): one attempt per
model; a rate-limited response or any thrown error (the `SyntaxError` from an
unparseable 2xx body, or the `TypeError` from writing `_usedModel` on a parsed
`null`) skips to the next model with zero wait; any other HTTP error returns
immediately; when every model failed the aggregated failure is returned.
`tmsg` is the engine-defined `TypeError.message` of the marker write. -/
def callGeminiRun (emsg : String → String) (tmsg : String) (env : String → ApiOutcome)
    (preferred : String) : List String → String → List CallEvent × ApiResult
  | [], lastError => ([], .failure (geminiExhaustedMsg lastError))
  | model :: rest, lastError =>
    match env model with
    | .ok text =>
      match parseJSONText text with
      | some parsed =>
        match markUsedModel preferred model parsed with
        | some marked => ([⟨model, 1, 0⟩], .success marked)
        | none =>
          let le := jsOrStr (some tmsg) ("Network error.")
          let r := callGeminiRun emsg tmsg env preferred rest le
          (⟨model, 1, 0⟩ :: r.1, r.2)
      | none =>
        let le := jsOrStr (some (emsg text)) ("Network error.")
        let r := callGeminiRun emsg tmsg env preferred rest le
        (⟨model, 1, 0⟩ :: r.1, r.2)
    | .httpErr status msg =>
      let errMsg := errMsgOf status msg
      if isRateLimitError status errMsg then
        let r := callGeminiRun emsg tmsg env preferred rest errMsg
        (⟨model, 1, 0⟩ :: r.1, r.2)
      else ([⟨model, 1, 0⟩], .failure errMsg)
    | .netErr msg =>
      let le := jsOrStr msg ("Network error.")
      let r := callGeminiRun emsg tmsg env preferred rest le
      (⟨model, 1, 0⟩ :: r.1, r.2)

/-- Model of `modelsToTry = [preferred, ...working.filter(m => m !== preferred)]`
(part_001 line 176). -/
def geminiModelsToTry (preferred : String) (working : List String) : List String :=
  preferred :: working.filter (fun m => m != preferred)

/-- Whether calling `model` in environment `env` yields a 2xx response whose
text parses as JSON. -/
def parsesG (env : String → ApiOutcome) (model : String) : Bool :=
  match env model with
  | .ok text => (parseJSONText text).isSome
  | _ => false

/-- Whether calling `model` in environment `env` yields a 2xx response whose
text parses as JSON and whose `_usedModel` marker write does not throw — the
condition under which the part_001 loop returns success on that model. -/
def succeedsG (preferred : String) (env : String → ApiOutcome) (model : String) : Bool :=
  match env model with
  | .ok text =>
    match parseJSONText text with
    | some parsed => (markUsedModel preferred model parsed).isSome
    | none => false
  | _ => false

/-- Whether attempt number `attempt` on `model` yields a 2xx response whose
text parses as JSON — the condition under which the part_000 loop returns
success on that attempt. -/
def succeedsA (env : String → Nat → ApiOutcome) (model : String) (attempt : Nat) : Bool :=
  match env model attempt with
  | .ok text => (parseJSONText text).isSome
  | _ => false

/-- An outcome classified as a throttle signal by `_isRateLimitError` after
the error message is extracted. -/
def throttleOutcome : ApiOutcome → Bool
  | .httpErr status msg => isRateLimitError status (errMsgOf status msg)
  | _ => false

/-- The response handling of `continueDialogue` in gemini-api.js (lines
200-220): a single call, no retry; a 2xx body that fails `JSON.parse` throws a
`SyntaxError`, which is answered with the distinct
`'Failed to parse AI response as JSON: ' + e.message` failure. -/
def continueDialogueHandle (emsg : String → String) (outcome : ApiOutcome) : ApiResult :=
  match outcome with
  | .ok text =>
    match parseJSONText text with
    | some parsed => .success parsed
    | none => .failure (("Failed to parse AI response as JSON: ") ++ emsg text)
  | .httpErr status msg => .failure (errMsgOf status msg)
  | .netErr msg => .failure (jsOrStr msg ("Network error."))

/-! ## Session data and the session page (part_002, storage.js) -/

/-- The content of one conversation turn: user turns hold the submitted text,
assistant turns hold the parsed response object. -/
inductive TurnContent where
  | text (s : String)
  | json (v : JsonValue)

/-- One entry of `conversation_history`: `{role, content}`. -/
structure Turn where
  role : String
  content : TurnContent

def userTurn (s : String) : Turn := ⟨("user"), .text s⟩

def assistantTurn (v : JsonValue) : Turn := ⟨("assistant"), .json v⟩

/-- The Session record persisted by storage.js (`createSession`, lines 64-83);
`id`, `topic`, `context` and the timestamps are opaque here except where a
claim mentions them. -/
structure Session where
  topic : String
  total_exchanges : Nat
  final_understanding_score : JsNum
  highest_difficulty : String
  hints_used : Nat
  is_active : Bool
  ended_at : Option String
  summary : Option JsonValue
  conversation_history : List Turn

/-- The store/network interactions of `handleResponse` that the persistence
claims are about: the model call (with the history passed to it) and each
`Storage.updateSession` write (with the `conversation_history` it persists). -/
inductive HrEvent where
  | modelCall (history : List Turn)
  | storeUpdate (history : List Turn)

def HrEvent.isModelCall : HrEvent → Bool
  | .modelCall _ => true
  | .storeUpdate _ => false

def HrEvent.isStoreUpdate : HrEvent → Bool
  | .modelCall _ => false
  | .storeUpdate _ => true

/-- Model of `aiData.understanding_score || 0` followed by
`Math.max(session.final_understanding_score || 0, score)` (part_002 lines
123 and 132).  The score fields are numeric per the response schema; `|| 0`
maps a missing or zero field to 0. -/
def scoreUpdate (prev : JsNum) (aiData : JsonValue) : JsNum :=
  let score : JsNum :=
    match jLookup aiData ("understanding_score") with
    | some (.num l) => if (numVal l).n == 0 then JsNum.ofInt 0 else numVal l
    | _ => JsNum.ofInt 0
  let prev0 : JsNum := if prev.n == 0 then JsNum.ofInt 0 else prev
  JsNum.max prev0 score

/-- Model of `aiData.difficulty_level || 'foundational'` as fed to the ratchet: the
field as an optional string.  Per the response schema the field is one of the
four difficulty strings; a non-string value is modelled as absent (a falsy one
behaves identically, a truthy non-string would merely fail every `===`
comparison inside `indexOf` and leave the stored value unchanged). -/
def difficultyField (aiData : JsonValue) : Option String :=
  match jLookup aiData ("difficulty_level") with
  | some (.str s) => some s
  | _ => none

/-- Model of `handleResponse` (part_002 lines 90-151), after the submitted text is
known to be non-empty, as a function of the stored session and the result of
`GeminiAPI.continueDialogue`: the user turn is pushed onto the in-memory
history, the model is called, and only then is the store updated — with the
full turn data on success, or with just the appended user turn on failure.
Returns the event trace and the session as persisted afterwards. -/
def handleResponse (s : Session) (response : String) (result : ApiResult) :
    List HrEvent × Session :=
  let convHistory := s.conversation_history ++ [userTurn response]
  match result with
  | .success aiData =>
    let hist2 := convHistory ++ [assistantTurn aiData]
    let s' : Session :=
      { s with
        conversation_history := hist2
        total_exchanges := s.total_exchanges + 1
        final_understanding_score := scoreUpdate s.final_understanding_score aiData
        highest_difficulty := updateHighestDifficulty s.highest_difficulty (difficultyField aiData) }
    ([.modelCall convHistory, .storeUpdate hist2], s')
  | .failure _ =>
    let s' : Session := { s with conversation_history := convHistory }
    ([.modelCall convHistory, .storeUpdate convHistory], s')

/-- Model of `summaryResult.data.overall_understanding || session.final_understanding_score`
(part_002 line 205): the summary's score overwrites the stored one only when
present and truthy (a present 0 is falsy and keeps the previous score).  The
field is numeric per the summary schema; a non-numeric value is treated like
an absent one. -/
def overallUnderstandingOr (data : JsonValue) (prev : JsNum) : JsNum :=
  match jLookup data ("overall_understanding") with
  | some (.num l) => if (numVal l).n == 0 then prev else numVal l
  | _ => prev

/-- Model of `handleEndSession` (part_002 lines 187-214) as a function of the stored
session, the summary call's result and the current timestamp: the session is
always deactivated and stamped; on a successful summary the summary object is
stored and `overall_understanding` overwrites the score through `||`. -/
def handleEndSession (s : Session) (summaryResult : ApiResult) (now : String) : Session :=
  match summaryResult with
  | .success data =>
    { s with
      is_active := false
      ended_at := some now
      summary := some data
      final_understanding_score := overallUnderstandingOr data s.final_understanding_score }
  | .failure _ =>
    { s with
      is_active := false
      ended_at := some now }

/-! ## Outbound history trimming (part_000 `continueDialogue` lines 227-247
and `generateSessionSummary` lines 260-269) -/

/-- JavaScript `l.slice(start)` with a possibly negative start. -/
def jsSliceFrom {α : Type} (l : List α) (start : Int) : List α :=
  if start < 0 then l.drop (l.length - (-start).toNat)
  else l.drop (min start.toNat l.length)

/-- Constant `_maxHistory` (part_000 line 11 and part_001 line 12). -/
def maxHistory : Nat := 10

/-- One outbound message `{role, content}`; content can be any value the code
pushes (`content.question` need not be a string). -/
structure Msg where
  role : String
  content : JsonValue

/-- Rendering of one stored history entry into an outbound message (part_000
lines 234-243): an assistant turn with object content sends
`content.question || JSON.stringify(content)`, any other content is coerced
with `String(...)`.  (`typeof null` is also `'object'` in JavaScript; a stored
null content would crash there and never occurs, it is rendered via
`JSON.stringify` here.) -/
def renderHistEntry (t : Turn) : Msg :=
  if t.role == ("assistant") then
    match t.content with
    | .json v =>
      match v with
      | .obj _ =>
        (match jLookup v ("question") with
         | some q => if jsTruthy q then ⟨("assistant"), q⟩
                     else ⟨("assistant"), .str (stringify v)⟩
         | none => ⟨("assistant"), .str (stringify v)⟩)
      | .arr _ =>
        (⟨("assistant"), .str (stringify v)⟩)
      | .null => ⟨("assistant"), .str (stringify v)⟩
      | other => ⟨("assistant"), .str (jsToString other)⟩
    | .text s => ⟨("assistant"), .str s⟩
  else
    match t.content with
    | .text s => ⟨("user"), .str s⟩
    | .json v => ⟨("user"), .str (jsToString v)⟩

/-- The fixed two seed messages of `continueDialogue` (part_000 lines
231-232). -/
def dialogueSeed (topic : String) : List Msg :=
  [⟨("user"), .str (("Topic: ") ++ topic)⟩,
   ⟨("assistant"), .str ("\x7b\"question\":\"Let\x27s explore this.\"\x7d")⟩]

/-- The outbound messages array built by `continueDialogue` (part_000 lines
227-247): seed messages, the rendered last `_maxHistory` turns, then the
student's latest response. -/
def continueDialogueMessages (topic : String) (conversationHistory : List Turn)
    (studentResponse : String) : List Msg :=
  let trimmed := jsSliceFrom conversationHistory (-(maxHistory : Int))
  dialogueSeed topic ++ trimmed.map renderHistEntry ++ [⟨("user"), .str studentResponse⟩]

/-- One `Q:`/`A:` context line of `generateSessionSummary` (part_000 lines
263-267). -/
def summaryLine (e : Turn) : String :=
  let r := if e.role == ("assistant") then ("Q") else ("A")
  let c :=
    match e.content with
    | .json v =>
      (match v with
       | .obj _ =>
         (match jLookup v ("question") with
          | some q => if jsTruthy q then jsToString q else ("")
          | none => (""))
       | .arr _ => ("")
       | .null => ("")
       | other => jsToString other)
    | .text s => s
  r ++ (": ") ++ c ++ ("\n")

/-- The context string built by `generateSessionSummary` (part_000 lines
260-269) over the last 12 turns. -/
def generateSessionSummaryCtx (topic : String) (conversationHistory : List Turn) : String :=
  let trimmed := jsSliceFrom conversationHistory (-12)
  trimmed.foldl (fun ctx e => ctx ++ summaryLine e) (("Topic: ") ++ topic ++ ("\n"))

/-- The error message a throttling outcome carries (used to describe the
`lastError` threaded by the loops). -/
def throttleMsg : ApiOutcome → String
  | .httpErr status msg => errMsgOf status msg
  | _ => ("")

/-- The store updates that happen strictly before the first model call in a
`handleResponse` event trace. -/
def updatesBeforeFirstCall (evs : List HrEvent) : List HrEvent :=
  (evs.takeWhile (fun e => !e.isModelCall)).filter (fun e => e.isStoreUpdate)

/-- A sample mid-dialogue session: running maximum understanding score 65,
one prior assistant turn. -/
def sampleSession : Session :=
  { topic := ("Recursion")
    total_exchanges := 2
    final_understanding_score := ⟨65, 1⟩
    highest_difficulty := ("intermediate")
    hints_used := 0
    is_active := true
    ended_at := none
    summary := none
    conversation_history := [assistantTurn (.obj [(("question"), .str ("Why?"))])] }

/-- A sample `SyntaxError.message` function. -/
def sampleEmsg : String → String := fun _ => ("boom")

/-- A sample environment: model `"m1"` is always throttled, every other model
answers 2xx with the JSON text `{}`. -/
def sampleEnvA : String → Nat → ApiOutcome :=
  fun m _ => if m == ("m1") then .httpErr 429 none else .ok ("\x7b\x7d")

/-- The single-attempt version of `sampleEnvA`. -/
def sampleEnvG : String → ApiOutcome :=
  fun m => if m == ("m1") then .httpErr 429 none else .ok ("\x7b\x7d")

/-- A sample environment for the parsed-`null` corner: the preferred model
`"p"` is throttled, `"m1"` answers 2xx with the body `null`, every other model
answers 2xx with `{}`. -/
def sampleEnvNull : String → ApiOutcome :=
  fun m =>
    if m == ("p") then .httpErr 429 none
    else if m == ("m1") then .ok ("null")
    else .ok ("\x7b\x7d")

/-! ## Theorems -/

/-- C8: the parser strips a leading and a trailing Markdown code-fence
delimiter when present and then performs a strict JSON parse:
`parse('```json\n{"a":1}\n```')` and `parse('{"a":1}')` both return the object
`{a:1}`, and `parse('not json')` fails with a parse error. -/
theorem parseJSON_fence_stripping_and_strict :
    parseJSONText ("```json\n\x7b\"a\":1\x7d\n```") = some (.obj [(("a"), .num ("1"))]) ∧
    parseJSONText ("\x7b\"a\":1\x7d") = some (.obj [(("a"), .num ("1"))]) ∧
    parseJSONText ("not json") = none :=
  ⟨rfl, rfl, rfl⟩

theorem taskStart_ge_last (minGap : Int) (s : SchedState) :
    s.lastRequestTime + minGap ≤ taskStart minGap s := by
  show s.lastRequestTime + minGap ≤
    (if 0 < minGap - (s.clock - s.lastRequestTime)
     then s.clock + (minGap - (s.clock - s.lastRequestTime)) else s.clock)
  split <;> omega

theorem taskStart_ge_clock (minGap : Int) (s : SchedState) :
    s.clock ≤ taskStart minGap s := by
  show s.clock ≤
    (if 0 < minGap - (s.clock - s.lastRequestTime)
     then s.clock + (minGap - (s.clock - s.lastRequestTime)) else s.clock)
  split <;> omega

theorem schedTrace_chain (minGap : Int) :
    ∀ (s : SchedState) (ds : List Int),
      List.Chain' (fun a b => a.1 + minGap ≤ b.1 ∧ a.1 + a.2 ≤ b.1) (schedTrace minGap s ds) := by
  intro s ds
  induction ds generalizing s with
  | nil => simp [schedTrace]
  | cons d ds ih =>
    cases ds with
    | nil => simp [schedTrace]
    | cons d2 ds2 =>
      simp only [schedTrace]
      rw [List.chain'_cons]
      refine ⟨⟨?_, ?_⟩, ?_⟩
      · exact taskStart_ge_last minGap ⟨taskStart minGap s + d, taskStart minGap s⟩
      · exact taskStart_ge_clock minGap ⟨taskStart minGap s + d, taskStart minGap s⟩
      · have h := ih ⟨taskStart minGap s + d, taskStart minGap s⟩
        simpa [schedTrace] using h

/-- C2: tasks submitted through `_enqueue` run one at a time in submission
order — each task starts no earlier than the previous task's completion — and
every task except the first starts at least the configured minimum gap
(1000 ms in the OpenRouter variant, 4000 ms in the Gemini variant) after the
previous task started, on the scheduler's clock. -/
theorem scheduler_serializes_and_paces :
    (∀ (s0 : SchedState) (durations : List Int),
      List.Chain' (fun a b => a.1 + 1000 ≤ b.1 ∧ a.1 + a.2 ≤ b.1)
        (schedTrace minRequestGapOpenRouter s0 durations)) ∧
    (∀ (s0 : SchedState) (durations : List Int),
      List.Chain' (fun a b => a.1 + 4000 ≤ b.1 ∧ a.1 + a.2 ≤ b.1)
        (schedTrace minRequestGapGemini s0 durations)) ∧
    minRequestGapOpenRouter = 1000 ∧ minRequestGapGemini = 4000 :=
  ⟨fun s0 ds => schedTrace_chain minRequestGapOpenRouter s0 ds,
   fun s0 ds => schedTrace_chain minRequestGapGemini s0 ds, rfl, rfl⟩

theorem updateHighestDifficulty_mono (current : String) (reported : Option String) :
    jsIndexOf difficultyOrder current ≤
      jsIndexOf difficultyOrder (updateHighestDifficulty current reported) := by
  unfold updateHighestDifficulty
  by_cases h : jsIndexOf difficultyOrder (jsOrStr (some current) ("foundational")) <
      jsIndexOf difficultyOrder (jsOrStr reported ("foundational"))
  · rw [if_pos h]
    by_cases hc : current = ("")
    · subst hc
      have h0 : jsIndexOf difficultyOrder (jsOrStr (some ("")) ("foundational")) = 0 := by decide
      have h1 : jsIndexOf difficultyOrder ("") = -1 := by decide
      rw [h0] at h
      omega
    · have hcur : jsOrStr (some current) ("foundational") = current := by
        simp [jsOrStr, hc]
      rw [hcur] at h
      omega
  · rw [if_neg h]

/-- C3: `highest_difficulty` is a ratchet over
foundational < intermediate < advanced < mastery: one update step never
decreases its position in the enumeration, and folding the reported sequence
[intermediate, foundational, advanced] from the initial `foundational` state
passes through intermediate, intermediate and ends at advanced. -/
theorem highestDifficulty_ratchet :
    (∀ (current : String) (reported : Option String),
      jsIndexOf difficultyOrder current ≤
        jsIndexOf difficultyOrder (updateHighestDifficulty current reported)) ∧
    updateHighestDifficulty ("foundational") (some ("intermediate")) = ("intermediate") ∧
    updateHighestDifficulty ("intermediate") (some ("foundational")) = ("intermediate") ∧
    updateHighestDifficulty ("intermediate") (some ("advanced")) = ("advanced") ∧
    List.foldl (fun c r => updateHighestDifficulty c (some r)) ("foundational")
      [("intermediate"), ("foundational"), ("advanced")] = ("advanced") :=
  ⟨updateHighestDifficulty_mono, by decide, by decide, by decide, by decide⟩

theorem mem_mergeSet_left : ∀ (l acc : List String) (x : String),
    x ∈ acc → x ∈ mergeSet acc l := by
  intro l
  induction l with
  | nil => intro acc x hx; exact hx
  | cons i t ih =>
    intro acc x hx
    show x ∈ mergeSet (if i ∈ acc then acc else acc ++ [i]) t
    refine ih _ x ?_
    split
    · exact hx
    · exact List.mem_append_left _ hx

theorem mem_mergeSet_right : ∀ (l acc : List String) (x : String),
    x ∈ l → x ∈ mergeSet acc l := by
  intro l
  induction l with
  | nil => intro acc x hx; cases hx
  | cons i t ih =>
    intro acc x hx
    show x ∈ mergeSet (if i ∈ acc then acc else acc ++ [i]) t
    rcases List.mem_cons.mp hx with h | h
    · subst h
      refine mem_mergeSet_left t _ x ?_
      split
      · assumption
      · exact List.mem_append_right _ (List.mem_singleton.mpr rfl)
    · exact ih _ x h

theorem mem_mergeSet_iff : ∀ (l acc : List String) (x : String),
    x ∈ mergeSet acc l ↔ x ∈ acc ∨ x ∈ l := by
  intro l
  induction l with
  | nil => intro acc x; simp [mergeSet]
  | cons i t ih =>
    intro acc x
    constructor
    · intro hx
      have hx' : x ∈ mergeSet (if i ∈ acc then acc else acc ++ [i]) t := hx
      rcases (ih _ x).mp hx' with h | h
      · split at h
        · exact Or.inl h
        · rcases List.mem_append.mp h with h2 | h2
          · exact Or.inl h2
          · exact Or.inr (List.mem_cons.mpr (Or.inl (List.mem_singleton.mp h2)))
      · exact Or.inr (List.mem_cons.mpr (Or.inr h))
    · intro hx
      rcases hx with h | h
      · exact mem_mergeSet_left _ acc x h
      · exact mem_mergeSet_right _ acc x h

theorem mergeSet_eq_of_subset : ∀ (l acc : List String),
    (∀ x ∈ l, x ∈ acc) → mergeSet acc l = acc := by
  intro l
  induction l with
  | nil => intro acc _; rfl
  | cons i t ih =>
    intro acc h
    show mergeSet (if i ∈ acc then acc else acc ++ [i]) t = acc
    rw [if_pos (h i (List.mem_cons.mpr (Or.inl rfl)))]
    exact ih acc (fun x hx => h x (List.mem_cons.mpr (Or.inr hx)))

theorem mergeSet_idem (acc l : List String) :
    mergeSet (mergeSet acc l) l = mergeSet acc l :=
  mergeSet_eq_of_subset l _ (fun x hx => mem_mergeSet_right l acc x hx)

theorem mergeSet_nodup : ∀ (l acc : List String), acc.Nodup → (mergeSet acc l).Nodup := by
  intro l
  induction l with
  | nil => intro acc h; exact h
  | cons i t ih =>
    intro acc h
    show (mergeSet (if i ∈ acc then acc else acc ++ [i]) t).Nodup
    refine ih _ ?_
    split
    · exact h
    · rename_i hni
      rw [List.nodup_append]
      exact ⟨h, List.nodup_singleton i,
        fun x hx hx2 => hni (by rwa [List.mem_singleton.mp hx2] at hx)⟩

theorem mergeSet_extends : ∀ (l acc : List String), acc <+: mergeSet acc l := by
  intro l
  induction l with
  | nil => intro acc; exact ⟨[], List.append_nil acc⟩
  | cons i t ih =>
    intro acc
    show acc <+: mergeSet (if i ∈ acc then acc else acc ++ [i]) t
    refine List.IsPrefix.trans ?_ (ih _)
    split
    · exact ⟨[], List.append_nil acc⟩
    · exact ⟨[i], rfl⟩

/-- C4: the dialogue-state merge treats `correct_insights` and
`misconceptions` as deduplicated accumulating sets (membership after a merge
is exactly membership in either side, previously accumulated items keep their
positions, dedup preserves nodup) and replaces `gaps` wholesale with the
latest turn's list; consequently folding the same `correct_insights` list
twice yields the same accumulated state as folding it once. -/
theorem insightSets_dedup_and_gaps_replace :
    (∀ (s : InsightState) (sig : Signals) (l : List String),
      sig.gaps = some l → (updateUIMerge s sig).allGaps = l) ∧
    (∀ (acc l : List String) (x : String), x ∈ mergeSet acc l ↔ x ∈ acc ∨ x ∈ l) ∧
    (∀ (acc l : List String), acc <+: mergeSet acc l) ∧
    (∀ (acc l : List String), acc.Nodup → (mergeSet acc l).Nodup) ∧
    (∀ (s : InsightState) (l : List String),
      updateUIMerge (updateUIMerge s ⟨some l, none, none⟩) ⟨some l, none, none⟩ =
        updateUIMerge s ⟨some l, none, none⟩) := by
  refine ⟨?_, ?_, ?_, ?_, ?_⟩
  · intro s sig l h
    simp [updateUIMerge, h]
  · intro acc l x
    exact mem_mergeSet_iff l acc x
  · intro acc l
    exact mergeSet_extends l acc
  · intro acc l h
    exact mergeSet_nodup l acc h
  · intro s l
    cases s with
    | mk ci mi ga => simp [updateUIMerge, mergeSet_idem]

/-- Witness for `insightSets_dedup_and_gaps_replace` at concrete inputs. -/
theorem insightSets_dedup_and_gaps_replace_witness :
    (updateUIMerge ⟨[], [], [("g0")]⟩ ⟨none, none, some [("g1")]⟩).allGaps = [("g1")] ∧
    ((("a")) ∈ mergeSet [("a"), ("b")] [("a"), ("c")] ↔
      (("a")) ∈ [("a"), ("b")] ∨ (("a")) ∈ [("a"), ("c")]) ∧
    [("a"), ("b")] <+: mergeSet [("a"), ("b")] [("a"), ("c")] ∧
    (mergeSet [("a"), ("b")] [("a"), ("c")]).Nodup ∧
    updateUIMerge (updateUIMerge ⟨[("x")], [], []⟩ ⟨some [("x"), ("y")], none, none⟩)
        ⟨some [("x"), ("y")], none, none⟩ =
      updateUIMerge ⟨[("x")], [], []⟩ ⟨some [("x"), ("y")], none, none⟩ :=
  ⟨insightSets_dedup_and_gaps_replace.1 ⟨[], [], [("g0")]⟩ ⟨none, none, some [("g1")]⟩
      [("g1")] rfl,
   insightSets_dedup_and_gaps_replace.2.1 [("a"), ("b")] [("a"), ("c")] (("a")),
   insightSets_dedup_and_gaps_replace.2.2.1 [("a"), ("b")] [("a"), ("c")],
   insightSets_dedup_and_gaps_replace.2.2.2.1 [("a"), ("b")] [("a"), ("c")] (by decide),
   insightSets_dedup_and_gaps_replace.2.2.2.2 ⟨[("x")], [], []⟩ [("x"), ("y")]⟩

/-- C5 counterexample: a summary whose `overall_understanding` is present with
value 0 does **not** overwrite `final_understanding_score` — JavaScript `||`
treats 0 as falsy and keeps the previous running maximum (65 here), so the
claim's "whenever present ... overwrites" fails at this input. -/
theorem endSession_present_zero_not_overwritten :
    (handleEndSession sampleSession
        (.success (.obj [(("overall_understanding"), .num ("0"))])) ("t")).final_understanding_score
      = ⟨65, 1⟩ ∧
    ¬ (handleEndSession sampleSession
        (.success (.obj [(("overall_understanding"), .num ("0"))])) ("t")).final_understanding_score
      = JsNum.ofInt 0 :=
  ⟨rfl, by decide⟩

/-- C5 (amended): when a session is ended and the summary call succeeds, a
present **nonzero** `overall_understanding` overwrites
`final_understanding_score` (no maximum with the previous value is taken) and
`is_active` becomes false (it becomes false even when the summary call fails);
in particular ending with `overall_understanding` 80 after a running maximum
of 65 leaves the score at 80. -/
theorem endSession_overwrites_score_and_deactivates :
    (∀ (s : Session) (data : JsonValue) (now lexeme : String),
      jLookup data ("overall_understanding") = some (.num lexeme) →
      (numVal lexeme).n ≠ 0 →
      (handleEndSession s (.success data) now).final_understanding_score = numVal lexeme ∧
      (handleEndSession s (.success data) now).is_active = false) ∧
    (∀ (s : Session) (r : ApiResult) (now : String),
      (handleEndSession s r now).is_active = false) ∧
    (handleEndSession sampleSession
        (.success (.obj [(("overall_understanding"), .num ("80"))])) ("t")).final_understanding_score
      = ⟨80, 1⟩ := by
  refine ⟨?_, ?_, rfl⟩
  · intro s data now lexeme h hnz
    have hn : ((numVal lexeme).n == 0) = false := by
      simp [hnz]
    constructor
    · simp [handleEndSession, overallUnderstandingOr, h, hn]
    · rfl
  · intro s r now
    cases r <;> rfl

/-- Witness for `endSession_overwrites_score_and_deactivates` at concrete
inputs. -/
theorem endSession_overwrites_score_and_deactivates_witness :
    ((handleEndSession sampleSession
        (.success (.obj [(("overall_understanding"), .num ("80"))])) ("t")).final_understanding_score
      = numVal ("80") ∧
     (handleEndSession sampleSession
        (.success (.obj [(("overall_understanding"), .num ("80"))])) ("t")).is_active = false) ∧
    (handleEndSession sampleSession
        (.success (.obj [(("overall_understanding"), .num ("30"))])) ("t")).final_understanding_score
      = numVal ("30") ∧
    (handleEndSession sampleSession (.failure ("boom")) ("t")).is_active = false :=
  ⟨endSession_overwrites_score_and_deactivates.1 sampleSession
      (.obj [(("overall_understanding"), .num ("80"))]) ("t") ("80") rfl (by decide),
   (endSession_overwrites_score_and_deactivates.1 sampleSession
      (.obj [(("overall_understanding"), .num ("30"))]) ("t") ("30") rfl (by decide)).1,
   endSession_overwrites_score_and_deactivates.2.1 sampleSession (.failure ("boom")) ("t")⟩

/-- C7 counterexample: for a concrete session and a failed call, the
`handleResponse` event trace contains **no** store update before the model
call — the first event is already the model call, so the user turn is not
persisted to the store before the call is attempted (persistence happens only
afterwards), contradicting the claim's ordering. -/
theorem userTurn_not_persisted_before_call :
    updatesBeforeFirstCall (handleResponse sampleSession ("my answer") (.failure ("boom"))).1
      = [] ∧
    (handleResponse sampleSession ("my answer") (.failure ("boom"))).1 =
      [.modelCall (sampleSession.conversation_history ++ [userTurn ("my answer")]),
       .storeUpdate (sampleSession.conversation_history ++ [userTurn ("my answer")])] :=
  ⟨rfl, rfl⟩

/-- C7 (amended): the user turn is appended to the in-memory history before
the call, but persisted to the store only **after** the call returns (the
trace is always model call first, then one store update); when the call
returns a failure the store update still carries the appended user turn as the
final entry, with no following assistant turn — so a failed call never loses
the user's input. -/
theorem userTurn_persisted_after_failed_call :
    ∀ (s : Session) (response err : String),
      (handleResponse s response (.failure err)).1 =
        [.modelCall (s.conversation_history ++ [userTurn response]),
         .storeUpdate (s.conversation_history ++ [userTurn response])] ∧
      (handleResponse s response (.failure err)).2.conversation_history =
        s.conversation_history ++ [userTurn response] ∧
      (handleResponse s response (.failure err)).2.conversation_history.getLast? =
        some (userTurn response) ∧
      (∀ (result : ApiResult),
        updatesBeforeFirstCall (handleResponse s response result).1 = []) := by
  intro s response err
  refine ⟨rfl, rfl, ?_, ?_⟩
  · show (s.conversation_history ++ [userTurn response]).getLast? = some (userTurn response)
    simp
  · intro result
    cases result <;> rfl

theorem jsSliceFrom_neg {α : Type} (l : List α) (n : Nat) (hn : 0 < n) :
    jsSliceFrom l (-(n : Int)) = l.drop (l.length - n) := by
  unfold jsSliceFrom
  rw [if_pos (by omega : -(n : Int) < 0)]
  congr 1
  omega

/-- C10: for every conversation history longer than 10 turns,
`continueDialogue` sends the model only the last 10 turns (the outbound
messages are the fixed seed, the rendered last-10 suffix and the student's
response, and coincide with the messages built from just that suffix), and
`generateSessionSummary` sends only the last 12 — earlier turns of the
persisted history are not part of the outbound request. -/
theorem outbound_request_trims_history :
    ∀ (topic : String) (hist : List Turn) (resp : String),
      (10 < hist.length →
        continueDialogueMessages topic hist resp =
          dialogueSeed topic ++ (hist.drop (hist.length - 10)).map renderHistEntry ++
            [⟨("user"), .str resp⟩] ∧
        continueDialogueMessages topic hist resp =
          continueDialogueMessages topic (hist.drop (hist.length - 10)) resp ∧
        (hist.drop (hist.length - 10)).length = 10) ∧
      (12 < hist.length →
        generateSessionSummaryCtx topic hist =
          generateSessionSummaryCtx topic (hist.drop (hist.length - 12)) ∧
        (hist.drop (hist.length - 12)).length = 12) := by
  intro topic hist resp
  constructor
  · intro h
    have hlen : (hist.drop (hist.length - 10)).length = 10 := by
      rw [List.length_drop]; omega
    have hs : jsSliceFrom hist (-(maxHistory : Int)) = hist.drop (hist.length - 10) := by
      have := jsSliceFrom_neg hist 10 (by omega)
      simpa [maxHistory] using this
    have hs2 : jsSliceFrom (hist.drop (hist.length - 10)) (-(maxHistory : Int)) =
        hist.drop (hist.length - 10) := by
      have := jsSliceFrom_neg (hist.drop (hist.length - 10)) 10 (by omega)
      rw [hlen] at this
      simpa [maxHistory] using this
    refine ⟨?_, ?_, hlen⟩
    · show dialogueSeed topic ++ (jsSliceFrom hist (-(maxHistory : Int))).map renderHistEntry ++
          [⟨("user"), .str resp⟩] = _
      rw [hs]
    · show dialogueSeed topic ++ (jsSliceFrom hist (-(maxHistory : Int))).map renderHistEntry ++
          [⟨("user"), .str resp⟩] =
        dialogueSeed topic ++
          (jsSliceFrom (hist.drop (hist.length - 10)) (-(maxHistory : Int))).map renderHistEntry ++
          [⟨("user"), .str resp⟩]
      rw [hs, hs2]
  · intro h
    have hlen : (hist.drop (hist.length - 12)).length = 12 := by
      rw [List.length_drop]; omega
    have hs : jsSliceFrom hist (-12) = hist.drop (hist.length - 12) :=
      jsSliceFrom_neg hist 12 (by omega)
    have hs2 : jsSliceFrom (hist.drop (hist.length - 12)) (-12) =
        hist.drop (hist.length - 12) := by
      have := jsSliceFrom_neg (hist.drop (hist.length - 12)) 12 (by omega)
      rw [hlen] at this
      simpa using this
    refine ⟨?_, hlen⟩
    show (jsSliceFrom hist (-12)).foldl _ _ = (jsSliceFrom (hist.drop (hist.length - 12)) (-12)).foldl _ _
    rw [hs, hs2]

/-- Witness for `outbound_request_trims_history` on a 13-turn history. -/
theorem outbound_request_trims_history_witness :
    ((List.replicate 13 (userTurn ("x"))).drop
        ((List.replicate 13 (userTurn ("x"))).length - 10)).length = 10 ∧
    ((List.replicate 13 (userTurn ("x"))).drop
        ((List.replicate 13 (userTurn ("x"))).length - 12)).length = 12 :=
  ⟨((outbound_request_trims_history ("T") (List.replicate 13 (userTurn ("x"))) ("r")).1
      (by simp)).2.2,
   ((outbound_request_trims_history ("T") (List.replicate 13 (userTurn ("x"))) ("r")).2
      (by simp)).2⟩

theorem consPrefix {α : Type} {l1 l2 : List α} (a : α) (h : l1 <+: l2) :
    a :: l1 <+: a :: l2 := by
  obtain ⟨t, ht⟩ := h
  exact ⟨t, by rw [List.cons_append, ht]⟩

theorem dropLast_cons_subset {α : Type} (a : α) (l : List α) :
    (a :: l).dropLast ⊆ a :: l.dropLast := by
  cases l with
  | nil => intro x hx; cases hx
  | cons b bs => intro x hx; exact hx

theorem getLast?_cons_of {α : Type} {l : List α} {e : α} (a : α) (h : l.getLast? = some e) :
    (a :: l).getLast? = some e := by
  cases l with
  | nil => cases h
  | cons b bs => rw [List.getLast?_cons_cons]; exact h

theorem mem_dropLast_append {α : Type} :
    ∀ (l1 l2 : List α) (x : α), x ∈ (l1 ++ l2).dropLast → x ∈ l1 ∨ x ∈ l2.dropLast := by
  intro l1
  induction l1 with
  | nil => intro l2 x hx; exact Or.inr hx
  | cons a t ih =>
    intro l2 x hx
    have hx2 : x ∈ a :: (t ++ l2).dropLast := dropLast_cons_subset a (t ++ l2) hx
    rcases List.mem_cons.mp hx2 with h | h
    · exact Or.inl (h ▸ List.mem_cons_self a t)
    · rcases ih l2 x h with h2 | h2
      · exact Or.inl (List.mem_cons_of_mem a h2)
      · exact Or.inr h2

theorem getLast?_append_of {α : Type} {l2 : List α} {e : α} (l1 : List α)
    (h : l2.getLast? = some e) : (l1 ++ l2).getLast? = some e := by
  induction l1 with
  | nil => exact h
  | cons a t ih =>
    rw [List.cons_append]
    exact getLast?_cons_of a ih

theorem markUsedModel_eq_none {preferred model : String} {v : JsonValue}
    (h : markUsedModel preferred model v = none) : v = .null ∧ model ≠ preferred := by
  have hpm : (model == preferred) = false := by
    cases hpm : model == preferred
    · rfl
    · unfold markUsedModel at h
      rw [if_pos hpm] at h
      cases h
  unfold markUsedModel at h
  rw [if_neg (by simp [hpm])] at h
  refine ⟨?_, by simpa using hpm⟩
  cases v with
  | null => rfl
  | bool b => cases h
  | num l => cases h
  | str s => cases h
  | arr es => cases h
  | obj fs => cases h

theorem callGeminiRun_props (emsg : String → String) (tmsg : String)
    (env : String → ApiOutcome) (preferred : String) :
    ∀ (models : List String) (le : String),
      ((callGeminiRun emsg tmsg env preferred models le).1.map (fun e => e.model)) <+: models ∧
      (∀ e ∈ (callGeminiRun emsg tmsg env preferred models le).1.dropLast,
        succeedsG preferred env e.model = false) ∧
      (∀ e ∈ (callGeminiRun emsg tmsg env preferred models le).1.dropLast,
        parsesG env e.model = true →
        (∃ text, env e.model = .ok text ∧ parseJSONText text = some .null) ∧
        e.model ≠ preferred) ∧
      (∀ v, (callGeminiRun emsg tmsg env preferred models le).2 = .success v →
        ∃ e, (callGeminiRun emsg tmsg env preferred models le).1.getLast? = some e ∧
          succeedsG preferred env e.model = true) := by
  intro models
  induction models with
  | nil =>
    intro le
    refine ⟨⟨[], rfl⟩, ?_, ?_, ?_⟩
    · intro e he
      simp [callGeminiRun] at he
    · intro e he
      simp [callGeminiRun] at he
    · intro v hv
      simp [callGeminiRun] at hv
  | cons m rest ih =>
    intro le
    cases henv : env m with
    | ok text =>
      cases hp : parseJSONText text with
      | some parsed =>
        cases hmk : markUsedModel preferred m parsed with
        | some marked =>
          have hrun : callGeminiRun emsg tmsg env preferred (m :: rest) le =
              ([⟨m, 1, 0⟩], .success marked) := by
            simp [callGeminiRun, henv, hp, hmk]
          refine ⟨?_, ?_, ?_, ?_⟩
          · rw [hrun]
            exact ⟨rest, rfl⟩
          · rw [hrun]
            intro e he
            cases he
          · rw [hrun]
            intro e he
            cases he
          · rw [hrun]
            intro v _
            exact ⟨⟨m, 1, 0⟩, rfl, by simp [succeedsG, henv, hp, hmk]⟩
        | none =>
          have hrun : callGeminiRun emsg tmsg env preferred (m :: rest) le =
              (⟨m, 1, 0⟩ ::
                (callGeminiRun emsg tmsg env preferred rest
                  (jsOrStr (some tmsg) ("Network error."))).1,
               (callGeminiRun emsg tmsg env preferred rest
                  (jsOrStr (some tmsg) ("Network error."))).2) := by
            simp [callGeminiRun, henv, hp, hmk]
          obtain ⟨hnull, hne⟩ := markUsedModel_eq_none hmk
          obtain ⟨ih1, ih2, ih3, ih4⟩ := ih (jsOrStr (some tmsg) ("Network error."))
          refine ⟨?_, ?_, ?_, ?_⟩
          · rw [hrun]
            exact consPrefix m ih1
          · rw [hrun]
            intro e he
            rcases List.mem_cons.mp (dropLast_cons_subset _ _ he) with h | h
            · subst h
              simp [succeedsG, henv, hp, hmk]
            · exact ih2 e h
          · rw [hrun]
            intro e he hparse
            rcases List.mem_cons.mp (dropLast_cons_subset _ _ he) with h | h
            · subst h
              exact ⟨⟨text, henv, by rw [hp, hnull]⟩, hne⟩
            · exact ih3 e h hparse
          · rw [hrun]
            intro v hv
            obtain ⟨e, hl, hs⟩ := ih4 v hv
            exact ⟨e, getLast?_cons_of _ hl, hs⟩
      | none =>
        have hrun : callGeminiRun emsg tmsg env preferred (m :: rest) le =
            (⟨m, 1, 0⟩ ::
              (callGeminiRun emsg tmsg env preferred rest
                (jsOrStr (some (emsg text)) ("Network error."))).1,
             (callGeminiRun emsg tmsg env preferred rest
                (jsOrStr (some (emsg text)) ("Network error."))).2) := by
          simp [callGeminiRun, henv, hp]
        obtain ⟨ih1, ih2, ih3, ih4⟩ := ih (jsOrStr (some (emsg text)) ("Network error."))
        refine ⟨?_, ?_, ?_, ?_⟩
        · rw [hrun]
          exact consPrefix m ih1
        · rw [hrun]
          intro e he
          rcases List.mem_cons.mp (dropLast_cons_subset _ _ he) with h | h
          · subst h
            simp [succeedsG, henv, hp]
          · exact ih2 e h
        · rw [hrun]
          intro e he hparse
          rcases List.mem_cons.mp (dropLast_cons_subset _ _ he) with h | h
          · subst h
            simp [parsesG, henv, hp] at hparse
          · exact ih3 e h hparse
        · rw [hrun]
          intro v hv
          obtain ⟨e, hl, hs⟩ := ih4 v hv
          exact ⟨e, getLast?_cons_of _ hl, hs⟩
    | httpErr status msg =>
      cases hRL : isRateLimitError status (errMsgOf status msg) with
      | true =>
        have hrun : callGeminiRun emsg tmsg env preferred (m :: rest) le =
            (⟨m, 1, 0⟩ ::
              (callGeminiRun emsg tmsg env preferred rest (errMsgOf status msg)).1,
             (callGeminiRun emsg tmsg env preferred rest (errMsgOf status msg)).2) := by
          simp [callGeminiRun, henv, hRL]
        obtain ⟨ih1, ih2, ih3, ih4⟩ := ih (errMsgOf status msg)
        refine ⟨?_, ?_, ?_, ?_⟩
        · rw [hrun]
          exact consPrefix m ih1
        · rw [hrun]
          intro e he
          rcases List.mem_cons.mp (dropLast_cons_subset _ _ he) with h | h
          · subst h
            simp [succeedsG, henv]
          · exact ih2 e h
        · rw [hrun]
          intro e he hparse
          rcases List.mem_cons.mp (dropLast_cons_subset _ _ he) with h | h
          · subst h
            simp [parsesG, henv] at hparse
          · exact ih3 e h hparse
        · rw [hrun]
          intro v hv
          obtain ⟨e, hl, hs⟩ := ih4 v hv
          exact ⟨e, getLast?_cons_of _ hl, hs⟩
      | false =>
        have hrun : callGeminiRun emsg tmsg env preferred (m :: rest) le =
            ([⟨m, 1, 0⟩], .failure (errMsgOf status msg)) := by
          simp [callGeminiRun, henv, hRL]
        refine ⟨?_, ?_, ?_, ?_⟩
        · rw [hrun]
          exact ⟨rest, rfl⟩
        · rw [hrun]
          intro e he
          cases he
        · rw [hrun]
          intro e he
          cases he
        · rw [hrun]
          intro v hv
          cases hv
    | netErr msg =>
      have hrun : callGeminiRun emsg tmsg env preferred (m :: rest) le =
          (⟨m, 1, 0⟩ ::
            (callGeminiRun emsg tmsg env preferred rest (jsOrStr msg ("Network error."))).1,
           (callGeminiRun emsg tmsg env preferred rest (jsOrStr msg ("Network error."))).2) := by
        simp [callGeminiRun, henv]
      obtain ⟨ih1, ih2, ih3, ih4⟩ := ih (jsOrStr msg ("Network error."))
      refine ⟨?_, ?_, ?_, ?_⟩
      · rw [hrun]
        exact consPrefix m ih1
      · rw [hrun]
        intro e he
        rcases List.mem_cons.mp (dropLast_cons_subset _ _ he) with h | h
        · subst h
          simp [succeedsG, henv]
        · exact ih2 e h
      · rw [hrun]
        intro e he hparse
        rcases List.mem_cons.mp (dropLast_cons_subset _ _ he) with h | h
        · subst h
          simp [parsesG, henv] at hparse
        · exact ih3 e h hparse
      · rw [hrun]
        intro v hv
        obtain ⟨e, hl, hs⟩ := ih4 v hv
        exact ⟨e, getLast?_cons_of _ hl, hs⟩

theorem tryAttempts_props (emsg : String → String) (env : String → Nat → ApiOutcome)
    (model : String) :
    ∀ (fuel attempt : Nat) (le : String), attempt + fuel = maxRetries + 1 →
      ((tryAttempts emsg env model attempt fuel le).1.map (fun e => e.model) =
        List.replicate (tryAttempts emsg env model attempt fuel le).1.length model) ∧
      ((tryAttempts emsg env model attempt fuel le).1.length ≤ fuel) ∧
      (1 ≤ fuel → 1 ≤ (tryAttempts emsg env model attempt fuel le).1.length) ∧
      (∀ le', (tryAttempts emsg env model attempt fuel le).2 = .nextModel le' →
        (tryAttempts emsg env model attempt fuel le).1.length = fuel) ∧
      (∀ e ∈ (tryAttempts emsg env model attempt fuel le).1.dropLast,
        succeedsA env model e.attempt = false) ∧
      (∀ le', (tryAttempts emsg env model attempt fuel le).2 = .nextModel le' →
        ∀ e ∈ (tryAttempts emsg env model attempt fuel le).1,
          succeedsA env model e.attempt = false) ∧
      (∀ v, (tryAttempts emsg env model attempt fuel le).2 = .done (.success v) →
        ∃ e, (tryAttempts emsg env model attempt fuel le).1.getLast? = some e ∧
          succeedsA env model e.attempt = true) := by
  intro fuel
  induction fuel with
  | zero =>
    intro attempt le _
    refine ⟨rfl, le_refl 0, ?_, ?_, ?_, ?_, ?_⟩
    · intro h; omega
    · intro le' _; rfl
    · intro e he; cases he
    · intro le' _ e he; cases he
    · intro v hv; cases hv
  | succ fuel ih =>
    intro attempt le hinv
    cases henv : env model attempt with
    | ok text =>
      cases hp : parseJSONText text with
      | some parsed =>
        have hrun : tryAttempts emsg env model attempt (fuel + 1) le =
            ([⟨model, attempt, 0⟩], .done (.success parsed)) := by
          simp [tryAttempts, henv, hp]
        rw [hrun]
        refine ⟨rfl, by simp [maxRetries], fun _ => by simp, ?_, ?_, ?_, ?_⟩
        · intro le' hv; cases hv
        · intro e he; cases he
        · intro le' hv; cases hv
        · intro v _
          exact ⟨⟨model, attempt, 0⟩, rfl, by simp [succeedsA, henv, hp]⟩
      | none =>
        by_cases hlt : attempt < maxRetries
        · have hrun : tryAttempts emsg env model attempt (fuel + 1) le =
              (⟨model, attempt, backoffWait attempt⟩ ::
                (tryAttempts emsg env model (attempt + 1) fuel
                  (jsOrStr (some (emsg text)) ("Network error."))).1,
               (tryAttempts emsg env model (attempt + 1) fuel
                  (jsOrStr (some (emsg text)) ("Network error."))).2) := by
            simp [tryAttempts, henv, hp, hlt]
          obtain ⟨ih1, ih2, _, ih4, ih5, ih6, ih7⟩ :=
            ih (attempt + 1) (jsOrStr (some (emsg text)) ("Network error.")) (by omega)
          rw [hrun]
          refine ⟨?_, ?_, fun _ => by simp, ?_, ?_, ?_, ?_⟩
          · simp only [List.map_cons, List.length_cons, List.replicate_succ, ih1]
          · simp only [List.length_cons]; omega
          · intro le' hv
            simp only [List.length_cons, ih4 le' hv]
          · intro e he
            rcases List.mem_cons.mp (dropLast_cons_subset _ _ he) with h | h
            · subst h
              simp [succeedsA, henv, hp]
            · exact ih5 e h
          · intro le' hv e he
            rcases List.mem_cons.mp he with h | h
            · subst h
              simp [succeedsA, henv, hp]
            · exact ih6 le' hv e h
          · intro v hv
            obtain ⟨e, hl, hs⟩ := ih7 v hv
            exact ⟨e, getLast?_cons_of _ hl, hs⟩
        · have hrun : tryAttempts emsg env model attempt (fuel + 1) le =
              ([⟨model, attempt, 0⟩],
               .nextModel (jsOrStr (some (emsg text)) ("Network error."))) := by
            simp [tryAttempts, henv, hp, hlt]
          rw [hrun]
          have hf0 : fuel = 0 := by
            simp only [maxRetries] at hinv hlt
            omega
          refine ⟨rfl, by simp, fun _ => by simp, ?_, ?_, ?_, ?_⟩
          · intro le' _; simp [hf0]
          · intro e he; cases he
          · intro le' _ e he
            rcases List.mem_cons.mp he with h | h
            · subst h
              simp [succeedsA, henv, hp]
            · cases h
          · intro v hv; cases hv
    | httpErr status msg =>
      cases hRL : isRateLimitError status (errMsgOf status msg) with
      | true =>
        by_cases hlt : attempt < maxRetries
        · have hrun : tryAttempts emsg env model attempt (fuel + 1) le =
              (⟨model, attempt, backoffWait attempt⟩ ::
                (tryAttempts emsg env model (attempt + 1) fuel (errMsgOf status msg)).1,
               (tryAttempts emsg env model (attempt + 1) fuel (errMsgOf status msg)).2) := by
            simp [tryAttempts, henv, hRL, hlt]
          obtain ⟨ih1, ih2, _, ih4, ih5, ih6, ih7⟩ :=
            ih (attempt + 1) (errMsgOf status msg) (by omega)
          rw [hrun]
          refine ⟨?_, ?_, fun _ => by simp, ?_, ?_, ?_, ?_⟩
          · simp only [List.map_cons, List.length_cons, List.replicate_succ, ih1]
          · simp only [List.length_cons]; omega
          · intro le' hv
            simp only [List.length_cons, ih4 le' hv]
          · intro e he
            rcases List.mem_cons.mp (dropLast_cons_subset _ _ he) with h | h
            · subst h
              simp [succeedsA, henv]
            · exact ih5 e h
          · intro le' hv e he
            rcases List.mem_cons.mp he with h | h
            · subst h
              simp [succeedsA, henv]
            · exact ih6 le' hv e h
          · intro v hv
            obtain ⟨e, hl, hs⟩ := ih7 v hv
            exact ⟨e, getLast?_cons_of _ hl, hs⟩
        · have hrun : tryAttempts emsg env model attempt (fuel + 1) le =
              ([⟨model, attempt, 0⟩], .nextModel (errMsgOf status msg)) := by
            simp [tryAttempts, henv, hRL, hlt]
          rw [hrun]
          have hf0 : fuel = 0 := by
            simp only [maxRetries] at hinv hlt
            omega
          refine ⟨rfl, by simp, fun _ => by simp, ?_, ?_, ?_, ?_⟩
          · intro le' _; simp [hf0]
          · intro e he; cases he
          · intro le' _ e he
            rcases List.mem_cons.mp he with h | h
            · subst h
              simp [succeedsA, henv]
            · cases h
          · intro v hv; cases hv
      | false =>
        have hrun : tryAttempts emsg env model attempt (fuel + 1) le =
            ([⟨model, attempt, 0⟩], .done (.failure (errMsgOf status msg))) := by
          simp [tryAttempts, henv, hRL]
        rw [hrun]
        refine ⟨rfl, by simp, fun _ => by simp, ?_, ?_, ?_, ?_⟩
        · intro le' hv; cases hv
        · intro e he; cases he
        · intro le' hv; cases hv
        · intro v hv; cases hv
    | netErr msg =>
      by_cases hlt : attempt < maxRetries
      · have hrun : tryAttempts emsg env model attempt (fuel + 1) le =
            (⟨model, attempt, backoffWait attempt⟩ ::
              (tryAttempts emsg env model (attempt + 1) fuel
                (jsOrStr msg ("Network error."))).1,
             (tryAttempts emsg env model (attempt + 1) fuel
                (jsOrStr msg ("Network error."))).2) := by
          simp [tryAttempts, henv, hlt]
        obtain ⟨ih1, ih2, _, ih4, ih5, ih6, ih7⟩ :=
          ih (attempt + 1) (jsOrStr msg ("Network error.")) (by omega)
        rw [hrun]
        refine ⟨?_, ?_, fun _ => by simp, ?_, ?_, ?_, ?_⟩
        · simp only [List.map_cons, List.length_cons, List.replicate_succ, ih1]
        · simp only [List.length_cons]; omega
        · intro le' hv
          simp only [List.length_cons, ih4 le' hv]
        · intro e he
          rcases List.mem_cons.mp (dropLast_cons_subset _ _ he) with h | h
          · subst h
            simp [succeedsA, henv]
          · exact ih5 e h
        · intro le' hv e he
          rcases List.mem_cons.mp he with h | h
          · subst h
            simp [succeedsA, henv]
          · exact ih6 le' hv e h
        · intro v hv
          obtain ⟨e, hl, hs⟩ := ih7 v hv
          exact ⟨e, getLast?_cons_of _ hl, hs⟩
      · have hrun : tryAttempts emsg env model attempt (fuel + 1) le =
            ([⟨model, attempt, 0⟩], .nextModel (jsOrStr msg ("Network error."))) := by
          simp [tryAttempts, henv, hlt]
        rw [hrun]
        have hf0 : fuel = 0 := by
          simp only [maxRetries] at hinv hlt
          omega
        refine ⟨rfl, by simp, fun _ => by simp, ?_, ?_, ?_, ?_⟩
        · intro le' _; simp [hf0]
        · intro e he; cases he
        · intro le' _ e he
          rcases List.mem_cons.mp he with h | h
          · subst h
            simp [succeedsA, henv]
          · cases h
        · intro v hv; cases hv

theorem dropLast_sub {α : Type} (l : List α) : l.dropLast ⊆ l := by
  rw [List.dropLast_eq_take]
  exact List.take_subset _ _

theorem mem_of_getLast? {α : Type} : ∀ {l : List α} {e : α}, l.getLast? = some e → e ∈ l := by
  intro l
  induction l with
  | nil => intro e h; cases h
  | cons a t ih =>
    intro e h
    cases t with
    | nil =>
      cases h
      exact List.mem_cons_self a []
    | cons b bs =>
      rw [List.getLast?_cons_cons] at h
      exact List.mem_cons_of_mem a (ih h)

theorem model_eq_of_map_replicate {evs : List CallEvent} {m : String}
    (h : evs.map (fun e => e.model) = List.replicate evs.length m) :
    ∀ e ∈ evs, e.model = m := by
  intro e he
  have h2 : e.model ∈ evs.map (fun e => e.model) := List.mem_map_of_mem _ he
  rw [h] at h2
  exact List.eq_of_mem_replicate h2

theorem prefix_append_left {α : Type} (p : List α) {l1 l2 : List α} (h : l1 <+: l2) :
    p ++ l1 <+: p ++ l2 := by
  obtain ⟨t, ht⟩ := h
  exact ⟨t, by rw [List.append_assoc, ht]⟩

theorem replicate_prefix_of_le {α : Type} (m : α) {n k : Nat} (h : n ≤ k) :
    List.replicate n m <+: List.replicate k m := by
  refine ⟨List.replicate (k - n) m, ?_⟩
  rw [← List.replicate_add]
  congr 1
  omega

theorem callAPIRun_props (emsg : String → String) (env : String → Nat → ApiOutcome) :
    ∀ (models : List String) (le : String),
      ((callAPIRun emsg env models le).1.map (fun e => e.model)) <+:
        models.flatMap (fun m => List.replicate maxRetries m) ∧
      (∀ e ∈ (callAPIRun emsg env models le).1.dropLast,
        succeedsA env e.model e.attempt = false) ∧
      (∀ v, (callAPIRun emsg env models le).2 = .success v →
        ∃ e, (callAPIRun emsg env models le).1.getLast? = some e ∧
          succeedsA env e.model e.attempt = true) := by
  intro models
  induction models with
  | nil =>
    intro le
    refine ⟨⟨[], rfl⟩, ?_, ?_⟩
    · intro e he
      simp [callAPIRun] at he
    · intro v hv
      simp [callAPIRun] at hv
  | cons m rest ih =>
    intro le
    obtain ⟨p1, p2, _, p4, p5, p6, p7⟩ :=
      tryAttempts_props emsg env m maxRetries 1 le (by omega)
    rcases htr : tryAttempts emsg env m 1 maxRetries le with ⟨evs, st⟩
    rw [htr] at p1 p2 p4 p5 p6 p7
    simp only at p1 p2 p4 p5 p6 p7
    have hmodels : ∀ e ∈ evs, e.model = m := model_eq_of_map_replicate p1
    cases st with
    | done r =>
      have hrun : callAPIRun emsg env (m :: rest) le = (evs, r) := by
        simp [callAPIRun, htr]
      refine ⟨?_, ?_, ?_⟩
      · rw [hrun, List.flatMap_cons, p1]
        exact (replicate_prefix_of_le m p2).trans ⟨_, rfl⟩
      · rw [hrun]
        intro e he
        rw [hmodels e (dropLast_sub evs he)]
        exact p5 e he
      · rw [hrun]
        intro v hv
        obtain ⟨e, hl, hs⟩ := p7 v (congrArg ModelStep.done hv)
        refine ⟨e, hl, ?_⟩
        rw [hmodels e (mem_of_getLast? hl)]
        exact hs
    | nextModel le' =>
      have hrun : callAPIRun emsg env (m :: rest) le =
          (evs ++ (callAPIRun emsg env rest le').1, (callAPIRun emsg env rest le').2) := by
        simp [callAPIRun, htr]
      obtain ⟨ih1, ih2, ih3⟩ := ih le'
      have hlen : evs.length = maxRetries := p4 le' rfl
      have hall : ∀ e ∈ evs, succeedsA env e.model e.attempt = false := by
        intro e he
        rw [hmodels e he]
        exact p6 le' rfl e he
      refine ⟨?_, ?_, ?_⟩
      · rw [hrun, List.flatMap_cons]
        have hm : evs.map (fun e => e.model) = List.replicate maxRetries m := by
          rw [p1, hlen]
        rw [List.map_append, hm]
        exact prefix_append_left _ ih1
      · rw [hrun]
        intro e he
        rcases mem_dropLast_append evs _ e he with h | h
        · exact hall e h
        · exact ih2 e h
      · rw [hrun]
        intro v hv
        obtain ⟨e, hl, hs⟩ := ih3 v hv
        exact ⟨e, getLast?_append_of evs hl, hs⟩

/-- C1 counterexample: in the probing Gemini variant a non-preferred model
whose 2xx body is the JSON text `null` parses successfully, yet the invoker
does not return it: `parsed._usedModel = model` throws a `TypeError` on
`null`, the generic catch skips to the next model, and a model later in the
list is called after `"m1"` has already returned a successfully parsed
response — refuting the claim as stated at this input. -/
theorem parsed_null_response_skipped_counterexample :
    parsesG sampleEnvNull (("m1")) = true ∧
    (callGeminiRun sampleEmsg ("Cannot set properties of null") sampleEnvNull ("p")
        (geminiModelsToTry ("p") [("m1"), ("m2")]) ("")).1 =
      [⟨("p"), 1, 0⟩, ⟨("m1"), 1, 0⟩, ⟨("m2"), 1, 0⟩] ∧
    (callGeminiRun sampleEmsg ("Cannot set properties of null") sampleEnvNull ("p")
        (geminiModelsToTry ("p") [("m1"), ("m2")]) ("")).2 =
      .success (.obj [(("_usedModel"), .str ("m2"))]) :=
  ⟨rfl, rfl, rfl⟩

/-- C1 (amended): for every non-empty candidate model list, both fallback
invokers attempt models strictly in the given list order — the sequence of
models actually called is a prefix of the candidate list (with up to
`maxRetries` consecutive attempts per model in the OpenRouter variant).  The
OpenRouter variant returns the first successfully parsed response immediately:
no call follows one that parsed.  The probing Gemini variant returns the first
response that parses **and** survives the `_usedModel` marker write
immediately; the only parsed response it ever passes over is a JSON `null`
from a non-preferred model, whose marker write throws a `TypeError` that the
generic catch treats as a failed call. -/
theorem fallback_tries_models_in_order :
    ∀ (emsg : String → String) (tmsg : String) (envA : String → Nat → ApiOutcome)
      (envG : String → ApiOutcome) (preferred : String) (models : List String)
      (le : String), models ≠ [] →
      (((callAPIRun emsg envA models le).1.map (fun e => e.model)) <+:
          models.flatMap (fun m => List.replicate maxRetries m) ∧
        (∀ e ∈ (callAPIRun emsg envA models le).1.dropLast,
          succeedsA envA e.model e.attempt = false) ∧
        (∀ v, (callAPIRun emsg envA models le).2 = .success v →
          ∃ e, (callAPIRun emsg envA models le).1.getLast? = some e ∧
            succeedsA envA e.model e.attempt = true)) ∧
      (((callGeminiRun emsg tmsg envG preferred models le).1.map (fun e => e.model)) <+:
          models ∧
        (∀ e ∈ (callGeminiRun emsg tmsg envG preferred models le).1.dropLast,
          succeedsG preferred envG e.model = false) ∧
        (∀ e ∈ (callGeminiRun emsg tmsg envG preferred models le).1.dropLast,
          parsesG envG e.model = true →
          (∃ text, envG e.model = .ok text ∧ parseJSONText text = some .null) ∧
          e.model ≠ preferred) ∧
        (∀ v, (callGeminiRun emsg tmsg envG preferred models le).2 = .success v →
          ∃ e, (callGeminiRun emsg tmsg envG preferred models le).1.getLast? = some e ∧
            succeedsG preferred envG e.model = true)) :=
  fun emsg tmsg envA envG preferred models le _ =>
    ⟨callAPIRun_props emsg envA models le,
     callGeminiRun_props emsg tmsg envG preferred models le⟩

/-- Witness for `fallback_tries_models_in_order`: with `"m1"` throttled and
`"m2"` parsing, the runs retry/skip `"m1"`, then succeed on `"m2"` and stop;
with `"m1"` answering a `null` body behind the throttled preferred `"p"`, the
skipped-but-parsed call is recognised as exactly the null/non-preferred
corner. -/
theorem fallback_tries_models_in_order_witness :
    (((callAPIRun sampleEmsg sampleEnvA [("m1"), ("m2")] ("")).1.map (fun e => e.model)) <+:
        [("m1"), ("m2")].flatMap (fun m => List.replicate maxRetries m)) ∧
    succeedsA sampleEnvA (("m1")) 1 = false ∧
    (∃ e, (callAPIRun sampleEmsg sampleEnvA [("m1"), ("m2")] ("")).1.getLast? = some e ∧
        succeedsA sampleEnvA e.model e.attempt = true) ∧
    (((callGeminiRun sampleEmsg ("t") sampleEnvG ("m1") [("m1"), ("m2")] ("")).1.map
        (fun e => e.model)) <+: [("m1"), ("m2")]) ∧
    (∃ e, (callGeminiRun sampleEmsg ("t") sampleEnvG ("m1")
        [("m1"), ("m2")] ("")).1.getLast? = some e ∧
        succeedsG ("m1") sampleEnvG e.model = true) ∧
    ((∃ text, sampleEnvNull (("m1")) = .ok text ∧ parseJSONText text = some .null) ∧
      (("m1")) ≠ ("p")) := by
  obtain ⟨⟨a1, a2, a3⟩, g1, _, _, g4⟩ :=
    fallback_tries_models_in_order sampleEmsg ("t") sampleEnvA sampleEnvG ("m1")
      [("m1"), ("m2")] ("") (by simp)
  obtain ⟨_, _, _, n3, _⟩ :=
    fallback_tries_models_in_order sampleEmsg ("Cannot set properties of null") sampleEnvA
      sampleEnvNull ("p") (geminiModelsToTry ("p") [("m1"), ("m2")]) ("") (by simp [geminiModelsToTry])
  refine ⟨a1, ?_, ?_, g1, ?_, ?_⟩
  · exact a2 ⟨("m1"), 1, 2000⟩ (by decide)
  · exact a3 (.obj []) rfl
  · exact g4 (.obj [(("_usedModel"), .str ("m2"))]) rfl
  · exact n3 ⟨("m1"), 1, 0⟩ (by decide) (by decide)

theorem tryAttempts_throttle (emsg : String → String) (env : String → Nat → ApiOutcome)
    (model : String) (le : String) (h : ∀ a, throttleOutcome (env model a) = true) :
    tryAttempts emsg env model 1 maxRetries le =
      ([⟨model, 1, 2000⟩, ⟨model, 2, 4000⟩, ⟨model, 3, 0⟩],
       .nextModel (throttleMsg (env model 3))) := by
  have h1 := h 1
  have h2 := h 2
  have h3 := h 3
  rcases o1 : env model 1 with t1 | ⟨st1, m1⟩ | ms1
  · rw [o1] at h1; exact Bool.noConfusion h1
  · rw [o1] at h1
    have h1' : isRateLimitError st1 (errMsgOf st1 m1) = true := h1
    rcases o2 : env model 2 with t2 | ⟨st2, m2⟩ | ms2
    · rw [o2] at h2; exact Bool.noConfusion h2
    · rw [o2] at h2
      have h2' : isRateLimitError st2 (errMsgOf st2 m2) = true := h2
      rcases o3 : env model 3 with t3 | ⟨st3, m3⟩ | ms3
      · rw [o3] at h3; exact Bool.noConfusion h3
      · rw [o3] at h3
        have h3' : isRateLimitError st3 (errMsgOf st3 m3) = true := h3
        simp [tryAttempts, o1, o2, o3, h1', h2', h3', backoffWait, baseBackoff, maxRetries,
          throttleMsg]
      · rw [o3] at h3; exact Bool.noConfusion h3
    · rw [o2] at h2; exact Bool.noConfusion h2
  · rw [o1] at h1; exact Bool.noConfusion h1

theorem callAPIRun_throttle (emsg : String → String) (env : String → Nat → ApiOutcome)
    (h : ∀ (m : String) (a : Nat), throttleOutcome (env m a) = true) :
    ∀ (models : List String) (le : String),
      (callAPIRun emsg env models le).1 =
        models.flatMap (fun m => [⟨m, 1, 2000⟩, ⟨m, 2, 4000⟩, ⟨m, 3, 0⟩]) := by
  intro models
  induction models with
  | nil => intro le; rfl
  | cons m rest ih =>
    intro le
    have htr := tryAttempts_throttle emsg env m le (fun a => h m a)
    simp [callAPIRun, htr, List.flatMap_cons, ih]

theorem callGeminiRun_throttle (emsg : String → String) (tmsg : String)
    (env : String → ApiOutcome) (preferred : String)
    (h : ∀ m : String, throttleOutcome (env m) = true) :
    ∀ (models : List String) (le : String),
      (callGeminiRun emsg tmsg env preferred models le).1 =
        models.map (fun m => ⟨m, 1, 0⟩) := by
  intro models
  induction models with
  | nil => intro le; rfl
  | cons m rest ih =>
    intro le
    have hm := h m
    rcases o : env m with t | ⟨st, msg⟩ | ms
    · rw [o] at hm; exact Bool.noConfusion hm
    · rw [o] at hm
      have hm' : isRateLimitError st (errMsgOf st msg) = true := hm
      simp [callGeminiRun, o, hm', ih]
    · rw [o] at hm; exact Bool.noConfusion hm

/-- C6: under retry policy A (the OpenRouter variant), every outcome
classified as a throttle signal — HTTP status 429, or an error message
containing quota/rate/resource-exhaustion vocabulary — makes the invoker
retry the same model up to 3 attempts with exponential backoff waits of
2000 ms doubling per attempt (2000, then 4000 ms) before moving to the next
model; under policy B (the probing Gemini variant) it performs a single
attempt per model and skips to the next model with zero wait. -/
theorem throttle_retry_policies :
    (∀ msg : String, isRateLimitError 429 msg = true) ∧
    (∀ (status : Nat) (msg : String),
      (strIncludes (jsToLower msg) ("quota") || strIncludes (jsToLower msg) ("rate") ||
        strIncludes (jsToLower msg) ("resource_exhausted")) = true →
      isRateLimitError status msg = true) ∧
    (∀ (emsg : String → String) (env : String → Nat → ApiOutcome)
        (models : List String) (le : String),
      (∀ (m : String) (a : Nat), throttleOutcome (env m a) = true) →
      (callAPIRun emsg env models le).1 =
        models.flatMap (fun m => [⟨m, 1, 2000⟩, ⟨m, 2, 4000⟩, ⟨m, 3, 0⟩])) ∧
    (∀ (emsg : String → String) (tmsg : String) (env : String → ApiOutcome)
        (preferred : String) (models : List String) (le : String),
      (∀ m : String, throttleOutcome (env m) = true) →
      (callGeminiRun emsg tmsg env preferred models le).1 =
        models.map (fun m => ⟨m, 1, 0⟩)) := by
  refine ⟨?_, ?_, ?_, ?_⟩
  · intro msg; rfl
  · intro status msg h
    unfold isRateLimitError
    split
    · rfl
    · exact h
  · intro emsg env models le h
    exact callAPIRun_throttle emsg env h models le
  · intro emsg tmsg env preferred models le h
    exact callGeminiRun_throttle emsg tmsg env preferred h models le

/-- Witness for `throttle_retry_policies` on two all-throttled models. -/
theorem throttle_retry_policies_witness :
    isRateLimitError 429 ("x") = true ∧
    isRateLimitError 500 ("Quota exceeded") = true ∧
    (callAPIRun sampleEmsg (fun _ _ => .httpErr 429 none) [("a"), ("b")] ("")).1 =
      [⟨("a"), 1, 2000⟩, ⟨("a"), 2, 4000⟩, ⟨("a"), 3, 0⟩,
       ⟨("b"), 1, 2000⟩, ⟨("b"), 2, 4000⟩, ⟨("b"), 3, 0⟩] ∧
    (callGeminiRun sampleEmsg ("t") (fun _ => .httpErr 429 none) ("a") [("a"), ("b")] ("")).1 =
      [⟨("a"), 1, 0⟩, ⟨("b"), 1, 0⟩] := by
  refine ⟨throttle_retry_policies.1 ("x"),
    throttle_retry_policies.2.1 500 ("Quota exceeded") (by decide), ?_, ?_⟩
  · exact (throttle_retry_policies.2.2.1 sampleEmsg (fun _ _ => .httpErr 429 none)
      [("a"), ("b")] ("") (fun _ _ => rfl)).trans rfl
  · exact (throttle_retry_policies.2.2.2 sampleEmsg ("t") (fun _ => .httpErr 429 none) ("a")
      [("a"), ("b")] ("") (fun _ => rfl)).trans rfl

/-- C9 counterexample: in the part_000 invoker a 2xx response whose text is
not valid JSON (every call answers 2xx with the body `not json`) is handled
exactly like a generic retryable network failure: the same model is retried
with backoff (2000 then 4000 ms), the invoker falls through every model, and
the surfaced failure is the aggregated "all models are rate-limited or
unavailable" message rather than a distinct parse-error condition. -/
theorem parse_failure_reclassified_counterexample :
    (callAPIRun (fun _ => ("Unexpected token")) (fun _ _ => .ok ("not json"))
        [("m1"), ("m2")] ("")).1 =
      [⟨("m1"), 1, 2000⟩, ⟨("m1"), 2, 4000⟩, ⟨("m1"), 3, 0⟩,
       ⟨("m2"), 1, 2000⟩, ⟨("m2"), 2, 4000⟩, ⟨("m2"), 3, 0⟩] ∧
    (callAPIRun (fun _ => ("Unexpected token")) (fun _ _ => .ok ("not json"))
        [("m1"), ("m2")] ("")).2 =
      .failure (openRouterExhaustedMsg ("Unexpected token")) :=
  ⟨rfl, rfl⟩

/-- C9 (amended): only the single-call Gemini client (gemini-api.js
`continueDialogue`) surfaces a 2xx non-JSON body as a distinct parse-error
condition — a failure message carrying the
`Failed to parse AI response as JSON` marker, with no retry possible.  The
fallback invokers reclassify the thrown `SyntaxError` as a generic retryable
failure: the OpenRouter variant retries the same model with backoff (a further
attempt always follows a first-attempt parse failure), and the probing Gemini
variant skips to the next model. -/
theorem parse_error_distinct_in_single_call_variant :
    (∀ (emsg : String → String) (text : String), parseJSONText text = none →
      continueDialogueHandle emsg (.ok text) =
        .failure (("Failed to parse AI response as JSON: ") ++ emsg text) ∧
      strStartsWith (("Failed to parse AI response as JSON: ") ++ emsg text)
        ("Failed to parse AI response as JSON") = true) ∧
    (∀ (emsg : String → String) (env : String → Nat → ApiOutcome) (le m : String)
        (ms : List String) (text : String),
      env m 1 = .ok text → parseJSONText text = none →
      2 ≤ (callAPIRun emsg env (m :: ms) le).1.length ∧
      (callAPIRun emsg env (m :: ms) le).1.head? = some ⟨m, 1, 2000⟩) ∧
    (∀ (emsg : String → String) (tmsg : String) (env : String → ApiOutcome)
        (preferred le m : String) (ms : List String) (text : String),
      env m = .ok text → parseJSONText text = none →
      (callGeminiRun emsg tmsg env preferred (m :: ms) le).1 =
        ⟨m, 1, 0⟩ :: (callGeminiRun emsg tmsg env preferred ms
          (jsOrStr (some (emsg text)) ("Network error."))).1) := by
  refine ⟨?_, ?_, ?_⟩
  · intro emsg text h
    constructor
    · simp [continueDialogueHandle, h]
    · rfl
  · intro emsg env le m ms text henv hp
    have htr : tryAttempts emsg env m 1 maxRetries le =
        (⟨m, 1, 2000⟩ ::
          (tryAttempts emsg env m 2 2 (jsOrStr (some (emsg text)) ("Network error."))).1,
         (tryAttempts emsg env m 2 2 (jsOrStr (some (emsg text)) ("Network error."))).2) := by
      simp [tryAttempts, maxRetries, henv, hp, backoffWait, baseBackoff]
    obtain ⟨_, _, hlen1, _, _, _, _⟩ :=
      tryAttempts_props emsg env m 2 2 (jsOrStr (some (emsg text)) ("Network error.")) (by rfl)
    have hlen : 1 ≤ (tryAttempts emsg env m 2 2
        (jsOrStr (some (emsg text)) ("Network error."))).1.length := hlen1 (by omega)
    rcases hX : tryAttempts emsg env m 2 2 (jsOrStr (some (emsg text)) ("Network error."))
      with ⟨evs2, st2⟩
    rw [hX] at htr hlen
    simp only at hlen
    cases st2 with
    | done r =>
      have hrun : callAPIRun emsg env (m :: ms) le = (⟨m, 1, 2000⟩ :: evs2, r) := by
        simp [callAPIRun, htr]
      rw [hrun]
      constructor
      · simp only [List.length_cons]
        omega
      · rfl
    | nextModel le2 =>
      have hrun : callAPIRun emsg env (m :: ms) le =
          ((⟨m, 1, 2000⟩ :: evs2) ++ (callAPIRun emsg env ms le2).1,
           (callAPIRun emsg env ms le2).2) := by
        simp [callAPIRun, htr]
      rw [hrun]
      constructor
      · simp only [List.length_append, List.length_cons]
        omega
      · rfl
  · intro emsg tmsg env preferred le m ms text henv hp
    simp [callGeminiRun, henv, hp]

/-- Witness for `parse_error_distinct_in_single_call_variant` on the body
`not json`. -/
theorem parse_error_distinct_in_single_call_variant_witness :
    continueDialogueHandle sampleEmsg (.ok ("not json")) =
      .failure (("Failed to parse AI response as JSON: ") ++ sampleEmsg ("not json")) ∧
    2 ≤ (callAPIRun sampleEmsg (fun _ _ => .ok ("not json")) [("m1"), ("m2")] ("")).1.length ∧
    (callGeminiRun sampleEmsg ("t") (fun _ => .ok ("not json")) ("m1")
        [("m1"), ("m2")] ("")).1 =
      ⟨("m1"), 1, 0⟩ :: (callGeminiRun sampleEmsg ("t") (fun _ => .ok ("not json")) ("m1")
        [("m2")] (jsOrStr (some (sampleEmsg ("not json"))) ("Network error."))).1 :=
  ⟨(parse_error_distinct_in_single_call_variant.1 sampleEmsg ("not json") rfl).1,
   (parse_error_distinct_in_single_call_variant.2.1 sampleEmsg (fun _ _ => .ok ("not json"))
      ("") ("m1") [("m2")] ("not json") rfl rfl).1,
   parse_error_distinct_in_single_call_variant.2.2 sampleEmsg ("t") (fun _ => .ok ("not json"))
      ("m1") ("") ("m1") [("m2")] ("not json") rfl rfl⟩

end Socratic
